import Mathlib

/-!
Verification development for the dream-ludo-server rule engine.

The definitions below are a shallow embedding of the repository's game
logic.  The main embedding follows `src/unnamed/part_007` (the game.js
variant with the pity-six rule, the three-sixes penalty and the
inactivity forfeit); a second, smaller embedding near the end follows
the `src/game.js` variant that takes a `licenseStatus` parameter.

Conventions of the embedding:
* JavaScript in-place mutation becomes functional record update.
* JavaScript `null`/`undefined` becomes `Option`.
* An operation that would throw a `TypeError` in JavaScript (for example
  reading `.playerId` of `undefined` after an out-of-range array index)
  returns `none`; every other outcome returns `some` of the new state.
* `Math.random` dice sampling and `uuid`/`Date.now` are injected as
  explicit arguments.
* JavaScript `%` on numbers truncates toward zero, so integer `%` in the
  source is translated as `Int.tmod` (the dividends that actually occur
  are nonnegative, where `Int.tmod` and mathematical mod agree).
* Apostrophes inside the source's message strings are elided (the
  claims never inspect message text).
-/

namespace DreamLudo

/-- Player colors, from the `PlayerColor` enum of game.js. -/
inductive PlayerColor where
  | Red | Green | Blue | Yellow
deriving DecidableEq, Repr

/-- Piece states, from the `PieceState` enum of game.js. -/
inductive PieceState where
  | Home | Active | Finished
deriving DecidableEq, Repr

/-- Game statuses, from the `GameStatus` enum of game.js. -/
inductive GameStatus where
  | Setup | Playing | Finished
deriving DecidableEq, Repr

/-- One piece record: `{ id, color, state, position }`. -/
structure Piece where
  id : ℕ
  color : PlayerColor
  state : PieceState
  position : ℤ
deriving DecidableEq, Repr

/-- One player record, as built by `createPlayer` in part_007. -/
structure Player where
  playerId : String
  name : String
  color : PlayerColor
  pieces : List Piece
  isHost : Bool
  hasFinished : Bool
  isRemoved : Bool
  inactiveTurns : ℕ
  consecutiveSixes : ℕ
  rollsWithoutSix : ℕ
deriving DecidableEq, Repr

/-- One entry of `turn_history` (the `logTurnActivity` payload). -/
structure TurnEvent where
  userId : Option String
  name : Option String
  description : String
deriving DecidableEq, Repr

/-- One chat message; `id` and `timestamp` are injected (uuid / Date.now). -/
structure ChatMsg where
  id : ℕ
  gameCode : String
  playerId : String
  name : String
  color : PlayerColor
  text : String
  timestamp : ℕ
deriving DecidableEq, Repr

/-- The game state object of part_007 (`createNewGame`).  The source field
`type` is called `gameType` here; `max_players` is `maxPlayers`. -/
structure GameState where
  gameId : String
  hostId : Option String
  gameType : String
  maxPlayers : ℕ
  tournamentId : Option String
  players : List Player
  playerOrder : List PlayerColor
  currentPlayerIndex : ℕ
  diceValue : Option ℕ
  gameStatus : GameStatus
  winner : Option Player
  message : String
  movablePieces : List ℕ
  isRolling : Bool
  turnTimeLeft : ℕ
  chatMessages : List ChatMsg
  turnHistory : List TurnEvent
deriving DecidableEq, Repr

/-- `TOTAL_PATH_LENGTH = 52`. -/
def TOTAL_PATH_LENGTH : ℤ := 52
/-- `HOME_STRETCH_LENGTH = 6`. -/
def HOME_STRETCH_LENGTH : ℤ := 6
/-- `FINISH_POSITION_START = 100`. -/
def FINISH_POSITION_START : ℤ := 100
/-- `TURN_TIME_LIMIT = 30`. -/
def TURN_TIME_LIMIT : ℕ := 30
/-- `MAX_INACTIVE_TURNS = 5`. -/
def MAX_INACTIVE_TURNS : ℕ := 5

/-- `START_POSITIONS`: Green 1, Red 14, Yellow 40, Blue 27. -/
def START_POSITIONS : PlayerColor → ℤ
  | .Green => 1
  | .Red => 14
  | .Yellow => 40
  | .Blue => 27

/-- `PRE_HOME_POSITIONS`: Green 51, Red 12, Yellow 38, Blue 25. -/
def PRE_HOME_POSITIONS : PlayerColor → ℤ
  | .Green => 51
  | .Red => 12
  | .Yellow => 38
  | .Blue => 25

/-- `SAFE_SPOTS = [1, 9, 14, 22, 27, 35, 40, 48]`. -/
def SAFE_SPOTS : List ℤ := [1, 9, 14, 22, 27, 35, 40, 48]

/-- `ALL_COLORS = [Red, Green, Blue, Yellow]`. -/
def ALL_COLORS : List PlayerColor := [.Red, .Green, .Blue, .Yellow]

/-- `TWO_PLAYER_COLORS = [Green, Blue]`. -/
def TWO_PLAYER_COLORS : List PlayerColor := [.Green, .Blue]

/-- Index of a color in `ALL_COLORS` (`ALL_COLORS.indexOf(color)`). -/
def colorIndex : PlayerColor → ℕ
  | .Red => 0
  | .Green => 1
  | .Blue => 2
  | .Yellow => 3

/-- `createPlayer` from part_007: four Home pieces at position -1, all
counters zero. -/
def createPlayer (playerId name : String) (color : PlayerColor) (isHost : Bool) : Player :=
  { playerId := playerId
    name := name
    color := color
    pieces := (List.range 4).map fun i =>
      { id := colorIndex color * 4 + i, color := color, state := .Home, position := -1 }
    isHost := isHost
    hasFinished := false
    isRemoved := false
    inactiveTurns := 0
    consecutiveSixes := 0
    rollsWithoutSix := 0 }

/-- `getNewPositionInfo` from part_007, translated branch for branch.  A
JavaScript `null` dice value behaves as 0 here (null coerces to 0 in the
source's arithmetic and `null === 6` is false). -/
def getNewPositionInfo (piece : Piece) (diceValue : ℤ) : ℤ × PieceState :=
  if piece.state = PieceState.Home ∧ diceValue = 6 then
    (START_POSITIONS piece.color, PieceState.Active)
  else if piece.state = PieceState.Active then
    if FINISH_POSITION_START ≤ piece.position then
      -- Already in home stretch
      let newPos := piece.position + diceValue
      if newPos = FINISH_POSITION_START + HOME_STRETCH_LENGTH - 1 then
        (newPos, PieceState.Finished)
      else if newPos < FINISH_POSITION_START + HOME_STRETCH_LENGTH then
        (newPos, PieceState.Active)
      else
        (piece.position, piece.state)
    else
      -- On main path
      let preHomePos := PRE_HOME_POSITIONS piece.color
      let distToPreHome := Int.tmod (preHomePos - piece.position + TOTAL_PATH_LENGTH) TOTAL_PATH_LENGTH
      if distToPreHome < diceValue then
        -- Will enter home stretch
        let homeStretchPos := diceValue - distToPreHome - 1
        if homeStretchPos < HOME_STRETCH_LENGTH then
          let newPos := FINISH_POSITION_START + homeStretchPos
          if homeStretchPos = HOME_STRETCH_LENGTH - 1 then (newPos, PieceState.Finished)
          else (newPos, PieceState.Active)
        else
          (piece.position, piece.state)
      else
        -- Stays on main path
        let zeroBasedPos := piece.position - 1
        let newZeroBasedPos := Int.tmod (zeroBasedPos + diceValue) TOTAL_PATH_LENGTH
        (newZeroBasedPos + 1, PieceState.Active)
  else
    (piece.position, piece.state)

/-- `calculateMovablePieces`: ids of the pieces whose computed target
differs from their current (position, state), in piece order. -/
def calculateMovablePieces (pieces : List Piece) (diceValue : ℤ) : List ℕ :=
  pieces.filterMap fun piece =>
    let res := getNewPositionInfo piece diceValue
    if res.2 ≠ piece.state ∨ res.1 ≠ piece.position then some piece.id else none

/-- `logTurnActivity`: push one event onto `turn_history` (the Supabase
side effect is external I/O and is not modelled). -/
def logTurn (g : GameState) (userId name : Option String) (description : String) : GameState :=
  { g with turnHistory := g.turnHistory ++ [⟨userId, name, description⟩] }

/-- The while loop of `advanceTurn`: starting from `nextIndex`, skip
players who `hasFinished` or are `isRemoved`, at most `remaining` times
(the source bound is `checkedAll < players.length`). -/
def seekNextIndex (players : List Player) (nextIndex : ℕ) : ℕ → ℕ
  | 0 => nextIndex
  | r + 1 =>
    match players.get? nextIndex with
    | none => nextIndex
    | some p =>
      if p.hasFinished ∨ p.isRemoved then
        seekNextIndex players ((nextIndex + 1) % players.length) r
      else nextIndex

/-- `advanceTurn` from part_007.  With `gameStatus = Playing` and an empty
players list the source computes `(i+1) % 0 = NaN` and then throws on
`players[NaN].hasFinished`; that throw is `none`. -/
def advanceTurn (g : GameState) : Option GameState :=
  if g.gameStatus ≠ GameStatus.Playing then some g
  else if g.players.length = 0 then none
  else
    let nextIndex :=
      seekNextIndex g.players ((g.currentPlayerIndex + 1) % g.players.length) g.players.length
    let activePlayers := g.players.filter fun p => ¬p.isRemoved ∧ ¬p.hasFinished
    if activePlayers.length = 0 ∧ 1 < g.players.length then
      some (logTurn
        { g with gameStatus := GameStatus.Finished, winner := none,
                 message := "Game Over! No active players left." }
        none none "Game finished. No winner.")
    else
      match g.players.get? nextIndex with
      | none => none
      | some np =>
        some { g with
          players := g.players.set nextIndex { np with consecutiveSixes := 0 },
          currentPlayerIndex := nextIndex,
          diceValue := none,
          isRolling := false,
          movablePieces := [],
          turnTimeLeft := TURN_TIME_LIMIT,
          message := np.name ++ "s turn." }

/-- `createNewGame` from part_007, for an empty `options.players` list (a
non-empty one is the same state followed by `addPlayer` calls, which the
reachability relation below covers). -/
def createNewGame (gameId : String) (hostId : Option String) (gameType : String)
    (maxPlayers : ℕ) (tournamentId : Option String) : GameState :=
  { gameId := gameId
    hostId := hostId
    gameType := gameType
    maxPlayers := maxPlayers
    tournamentId := tournamentId
    players := []
    playerOrder := []
    currentPlayerIndex := 0
    diceValue := none
    gameStatus := GameStatus.Setup
    winner := none
    message := "Waiting for players..."
    movablePieces := []
    isRolling := false
    turnTimeLeft := TURN_TIME_LIMIT
    chatMessages := []
    turnHistory := [] }

/-- `addPlayer` from part_007.  The color-table lookup can only miss when
`players.length` exceeds the table (`max_players > 4`); the source would
then build a player with an undefined color, which this model does not
represent — the reachability relation only starts games with
`max_players` 2 or 4, where the lookup always hits. -/
def addPlayer (g : GameState) (playerId playerName : String) : Option GameState :=
  if g.gameStatus ≠ GameStatus.Setup then some g
  else if g.maxPlayers ≤ g.players.length then some g
  else if g.players.any fun p => p.playerId = playerId then some g
  else
    let isHost := g.players.length = 0
    let colorOpt :=
      if g.maxPlayers = 2 then TWO_PLAYER_COLORS.get? g.players.length
      else ALL_COLORS.get? g.players.length
    match colorOpt with
    | none => some g
    | some color =>
      let player := createPlayer playerId playerName color isHost
      some { g with players := g.players ++ [player],
                    message := playerName ++ " joined the game!" }

/-- `startGame` from part_007 (`requestingPlayerId` may be absent: the
system starts tournament rooms with no requester). -/
def startGame (g : GameState) (requestingPlayerId : Option String) : Option GameState :=
  if requestingPlayerId.isSome ∧ g.hostId ≠ requestingPlayerId then
    some { g with message := "Only the host can start the game." }
  else if g.gameStatus ≠ GameStatus.Setup ∨ g.players.length < 2 then
    some { g with message := "Need at least 2 players to start." }
  else
    match g.players.get? 0 with
    | none => none
    | some p0 =>
      some (logTurn
        { g with gameStatus := GameStatus.Playing,
                 playerOrder := g.players.map Player.color,
                 currentPlayerIndex := 0,
                 turnTimeLeft := TURN_TIME_LIMIT,
                 message := "Game started! " ++ p0.name ++ "s turn." }
        none none "Game started.")

/-- `initiateRoll` from part_007.  `players[currentPlayerIndex]` of an
empty or too-short list is `undefined` and reading `.playerId` throws:
`none`. -/
def initiateRoll (g : GameState) (playerId : String) : Option GameState :=
  match g.players.get? g.currentPlayerIndex with
  | none => none
  | some currentPlayer =>
    if currentPlayer.playerId ≠ playerId ∨ g.diceValue ≠ none ∨ g.isRolling then some g
    else some { g with isRolling := true,
                       message := currentPlayer.name ++ " is rolling..." }

/-- Rule 2 of `completeRoll`: forced 6 when no piece is on the board and
the player failed at least 4 times; otherwise the uniform sample. -/
def rolledDice (p : Player) (rand : ℕ) : ℕ :=
  if (p.pieces.all fun pc => pc.state = PieceState.Home) ∧ 4 ≤ p.rollsWithoutSix then 6
  else rand

/-- The six-counter updates of `completeRoll` (`allPiecesHome` is
recomputed here; the pieces have not changed since the source computed
it). -/
def rollCounters (p : Player) (diceValue : ℕ) : Player :=
  if diceValue = 6 then
    { p with rollsWithoutSix := 0, consecutiveSixes := p.consecutiveSixes + 1 }
  else
    { p with
      rollsWithoutSix :=
        if p.pieces.all fun pc => pc.state = PieceState.Home then p.rollsWithoutSix + 1
        else p.rollsWithoutSix,
      consecutiveSixes := 0 }

/-- `completeRoll` from part_007.  `rand` is the injected
`Math.floor(Math.random() * 6) + 1` sample; the returned `Option Bool`
is the source's return value (`none` for the guard's bare `return`). -/
def completeRoll (g : GameState) (playerId : String) (rand : ℕ) :
    Option (GameState × Option Bool) :=
  match g.players.get? g.currentPlayerIndex with
  | none => none
  | some cp0 =>
    if cp0.playerId ≠ playerId ∨ g.isRolling = false then some (g, none)
    else
      let cp1 := { cp0 with inactiveTurns := 0 }
      -- Rule 2: forced 6 if no pieces on board and failed multiple times
      let diceValue := rolledDice cp1 rand
      -- Update 6 counters
      let cp2 := rollCounters cp1 diceValue
      let g1 := { g with players := g.players.set g.currentPlayerIndex cp2,
                         diceValue := some diceValue,
                         isRolling := false }
      -- Rule 1.1: three 6s in a row penalty
      if cp2.consecutiveSixes = 3 then
        let g2 := logTurn
          { g1 with message := cp2.name ++ " rolled three 6s! Turn forfeited." }
          (some cp2.playerId) (some cp2.name) "rolled a 3rd six (penalty). Turn lost."
        match advanceTurn g2 with
        | none => none
        | some g3 => some (g3, some true)
      else
        let movablePieces := calculateMovablePieces cp2.pieces (diceValue : ℤ)
        let g2 := logTurn
          { g1 with movablePieces := movablePieces,
                    message := cp2.name ++ " rolled a " ++ toString diceValue ++ "." }
          (some cp2.playerId) (some cp2.name) ("rolled a " ++ toString diceValue ++ ".")
        if movablePieces.length = 0 then some (g2, some true) else some (g2, some false)

/-- Mutate the first piece whose id matches (the source's
`pieces.find(...)` followed by in-place mutation). -/
def updatePieceById : List Piece → ℕ → ℤ → PieceState → List Piece
  | [], _, _, _ => []
  | pc :: rest, pieceId, pos, st =>
    if pc.id = pieceId then { pc with position := pos, state := st } :: rest
    else pc :: updatePieceById rest pieceId pos st

/-- Mutate the first player whose `playerId` matches (the source's
`players.find(...)` followed by in-place mutation). -/
def updatePlayerById (players : List Player) (playerId : String) (f : Player → Player) :
    List Player :=
  match players with
  | [] => []
  | p :: rest =>
    if p.playerId = playerId then f p :: rest
    else p :: updatePlayerById rest playerId f

/-- Names of the opponents of each piece captured by a landing at
`newPos`, one entry per captured piece, in the source's loop order
(players outer, pieces inner, skipping the mover's color). -/
def capturedNames (players : List Player) (curColor : PlayerColor) (newPos : ℤ) :
    List String :=
  players.flatMap fun opp =>
    if opp.color = curColor then []
    else (opp.pieces.filter fun pc => pc.position = newPos).map fun _ => opp.name

/-- The capture loop's effect on the players array: every piece of every
other-colored player standing at `newPos` is sent Home at position -1. -/
def applyCaptures (players : List Player) (curColor : PlayerColor) (newPos : ℤ) :
    List Player :=
  players.map fun opp =>
    if opp.color = curColor then opp
    else { opp with pieces := opp.pieces.map fun pc =>
            if pc.position = newPos then { pc with state := PieceState.Home, position := -1 }
            else pc }

/-- The capture loop's effect on one piece: sent Home if it stands on
the landing cell (the body of the inner loop of `movePiece`). -/
def sendHomeAt (x : ℤ) (pc : Piece) : Piece :=
  if pc.position = x then { pc with state := PieceState.Home, position := -1 } else pc

/-- `movePiece` from part_007.  The dice value read by
`getNewPositionInfo(pieceToMove, gameState.diceValue)` is 0 when the
dice is `null` (JavaScript arithmetic coercion). -/
def movePiece (g : GameState) (playerId : String) (pieceId : ℕ) : Option GameState :=
  match g.players.get? g.currentPlayerIndex with
  | none => none
  | some cp0 =>
    if cp0.playerId ≠ playerId ∨ pieceId ∉ g.movablePieces then some g
    else
      -- the inactiveTurns reset persists even when the piece lookup misses
      let cp1 := { cp0 with inactiveTurns := 0 }
      match cp1.pieces.find? fun pc => pc.id = pieceId with
      | none => some { g with players := g.players.set g.currentPlayerIndex cp1 }
      | some pieceToMove =>
        let d : ℤ := ((g.diceValue.getD 0 : ℕ) : ℤ)
        let res := getNewPositionInfo pieceToMove d
        let newPos := res.1
        let newState := res.2
        let cp := { cp1 with pieces := updatePieceById cp1.pieces pieceId newPos newState }
        let g1 := logTurn
          { g with players := g.players.set g.currentPlayerIndex cp,
                   message := cp.name ++ " moved a piece." }
          (some cp.playerId) (some cp.name)
          ("moved piece to position " ++ toString newPos ++ ".")
        -- Check capture
        let doCapture :=
          newState = PieceState.Active ∧ newPos < FINISH_POSITION_START ∧ newPos ∉ SAFE_SPOTS
        let capNames := if doCapture then capturedNames g1.players cp.color newPos else []
        let g2 :=
          { g1 with
            players := if doCapture then applyCaptures g1.players cp.color newPos else g1.players,
            turnHistory := g1.turnHistory ++ capNames.map (fun n =>
              ⟨some cp.playerId, some cp.name, "captured " ++ n ++ "s piece."⟩),
            message := match capNames.getLast? with
              | some n => cp.name ++ " captured " ++ n ++ "s piece!"
              | none => g1.message }
        let capturedPiece := capNames ≠ []
        -- Rule 3: check if piece finished
        let pieceFinished := newState = PieceState.Finished
        let g3 :=
          if pieceFinished then
            logTurn { g2 with message := cp.name ++ "s piece reached Home! Extra Turn." }
              (some cp.playerId) (some cp.name) "piece reached home."
          else g2
        -- Check win condition
        if cp.pieces.all fun pc => pc.state = PieceState.Finished then
          let winP := { cp with hasFinished := true }
          some (logTurn
            { g3 with players := g3.players.set g.currentPlayerIndex winP,
                      winner := some winP,
                      gameStatus := GameStatus.Finished,
                      message := cp.name ++ " wins the game!" }
            none none ("Game finished. Winner: " ++ cp.name))
        else if g3.diceValue = some 6 ∨ capturedPiece ∨ pieceFinished then
          let g4 : GameState := { g3 with diceValue := none, movablePieces := [], isRolling := false }
          -- Source comment: "If it wasn't a 6 that caused the extra turn
          -- (e.g. finished with a 3), we reset consecutive sixes".  The
          -- source tests `gameState.diceValue !== 6` only after it has just
          -- set `gameState.diceValue = null`, so the test is always true
          -- and the reset always fires; translated literally:
          let cpReset := { cp with consecutiveSixes := 0 }
          let g5 :=
            if g4.diceValue ≠ some 6 then
              { g4 with players := g4.players.set g.currentPlayerIndex cpReset }
            else g4
          some { g5 with message := g5.message ++ " Roll again!",
                         turnTimeLeft := TURN_TIME_LIMIT }
        else
          advanceTurn g3

/-- `leaveGame` from part_007.  The current-player comparison
`players[currentPlayerIndex].playerId` throws on an out-of-range index:
`none`. -/
def leaveGame (g : GameState) (playerId : String) : Option GameState :=
  match g.players.find? fun p => p.playerId = playerId with
  | none => some g
  | some player =>
    if player.isRemoved then some g
    else
      let players1 := updatePlayerById g.players playerId fun p => { p with isRemoved := true }
      let g1 := logTurn
        { g with players := players1, message := player.name ++ " left the game." }
        (some player.playerId) (some player.name) "left the game."
      let activePlayers := g1.players.filter fun p => ¬p.isRemoved ∧ ¬p.hasFinished
      match activePlayers with
      | [w] =>
        some (logTurn
          { g1 with winner := some w, gameStatus := GameStatus.Finished,
                    message := w.name ++ " wins as the opponent left the game!" }
          (some w.playerId) (some w.name) "won because opponent left.")
      | _ =>
        match g1.players.get? g1.currentPlayerIndex with
        | none => none
        | some cp => if cp.playerId = playerId then advanceTurn g1 else some g1

/-- `handleMissedTurn` from part_007 (the `!currentPlayer` guard makes an
out-of-range index a no-op here, unlike the rolling functions). -/
def handleMissedTurn (g : GameState) : Option GameState :=
  match g.players.get? g.currentPlayerIndex with
  | none => some g
  | some cp0 =>
    if g.gameStatus ≠ GameStatus.Playing then some g
    else
      let cp := { cp0 with inactiveTurns := cp0.inactiveTurns + 1 }
      let g1 := logTurn
        { g with players := g.players.set g.currentPlayerIndex cp,
                 message := cp.name ++ " missed their turn." }
        (some cp.playerId) (some cp.name) "missed their turn."
      if MAX_INACTIVE_TURNS ≤ cp.inactiveTurns then leaveGame g1 cp.playerId
      else advanceTurn g1

/-- `sendChatMessage` from part_007; `msgId` and `time` are the injected
`uuidv4()` and `Date.now()` values (uuids are numbered here). -/
def sendChatMessage (g : GameState) (playerId text : String) (msgId time : ℕ) :
    Option GameState :=
  match g.players.find? fun p => p.playerId = playerId with
  | none => some g
  | some player =>
    let message : ChatMsg :=
      { id := msgId, gameCode := g.gameId, playerId := playerId,
        name := player.name, color := player.color, text := text, timestamp := time }
    let chat := g.chatMessages ++ [message]
    let chat := if 50 < chat.length then chat.tail else chat
    some { g with chatMessages := chat }

/-! The `src/game.js` variant (first file in `src/game.js`): same board
logic, but its `createPlayer` carries no six counters and its
`startGame` / `completeRoll` take a `licenseStatus` parameter that
defaults to `false` in the source signature. -/

/-- Player record of the `src/game.js` variant (no `consecutiveSixes`
and no `rollsWithoutSix`). -/
structure PlayerL where
  playerId : String
  name : String
  color : PlayerColor
  pieces : List Piece
  isHost : Bool
  hasFinished : Bool
  isRemoved : Bool
  inactiveTurns : ℕ
deriving DecidableEq, Repr

/-- Game state of the `src/game.js` variant. -/
structure GameStateL where
  gameId : String
  hostId : Option String
  gameType : String
  maxPlayers : ℕ
  tournamentId : Option String
  players : List PlayerL
  playerOrder : List PlayerColor
  currentPlayerIndex : ℕ
  diceValue : Option ℕ
  gameStatus : GameStatus
  winner : Option PlayerL
  message : String
  movablePieces : List ℕ
  isRolling : Bool
  turnTimeLeft : ℕ
  chatMessages : List ChatMsg
  turnHistory : List TurnEvent
deriving DecidableEq, Repr

/-- `logTurnActivity` of the `src/game.js` variant. -/
def logTurnL (g : GameStateL) (userId name : Option String) (description : String) :
    GameStateL :=
  { g with turnHistory := g.turnHistory ++ [⟨userId, name, description⟩] }

/-- `startGame(gameState, requestingPlayerId, supabase, licenseStatus = false)`
from `src/game.js`: the license check runs before anything else. -/
def startGameL (g : GameStateL) (requestingPlayerId : Option String)
    (licenseStatus : Bool) : Option GameStateL :=
  -- *** SECURITY CHECK ***
  if licenseStatus = false then
    some { g with message := "Server License Error: Game cannot start." }
  else if requestingPlayerId.isSome ∧ g.hostId ≠ requestingPlayerId then
    some { g with message := "Only the host can start the game." }
  else if g.gameStatus ≠ GameStatus.Setup ∨ g.players.length < 2 then
    some { g with message := "Need at least 2 players to start." }
  else
    match g.players.get? 0 with
    | none => none
    | some p0 =>
      some (logTurnL
        { g with gameStatus := GameStatus.Playing,
                 playerOrder := g.players.map PlayerL.color,
                 currentPlayerIndex := 0,
                 turnTimeLeft := TURN_TIME_LIMIT,
                 message := "Game started! " ++ p0.name ++ "s turn." }
        none none "Game started.")

/-- `completeRoll(gameState, playerId, supabase, licenseStatus = false)` from
`src/game.js`: without a license the dice never produces a result and the
function returns `false` (this variant has no pity six and no penalty). -/
def completeRollL (g : GameStateL) (playerId : String) (rand : ℕ)
    (licenseStatus : Bool) : Option (GameStateL × Option Bool) :=
  -- *** SECURITY CHECK ***
  if licenseStatus = false then
    some ({ g with message := "License Invalid. Gameplay paused." }, some false)
  else
    match g.players.get? g.currentPlayerIndex with
    | none => none
    | some cp0 =>
      if cp0.playerId ≠ playerId ∨ g.isRolling = false then some (g, none)
      else
        let cp := { cp0 with inactiveTurns := 0 }
        let movablePieces := calculateMovablePieces cp.pieces (rand : ℤ)
        let g1 := logTurnL
          { g with players := g.players.set g.currentPlayerIndex cp,
                   diceValue := some rand,
                   isRolling := false,
                   movablePieces := movablePieces,
                   message := cp.name ++ " rolled a " ++ toString rand ++ "." }
          (some cp.playerId) (some cp.name) ("rolled a " ++ toString rand ++ ".")
        if movablePieces.length = 0 then some (g1, some true) else some (g1, some false)

/-! The specification's reference position computation, for comparing
`getNewPositionInfo` against the spec text. -/

/-- Modelled from the spec: the "Position computation" rules of spec
section 4.1, written from the spec's words for comparison with the
source's `getNewPositionInfo` ("no legal move" is the identity target,
matching the spec's movable-set definition; the spec gives a Finished
piece no move). -/
def specTarget (pc : Piece) (d : ℤ) : ℤ × PieceState :=
  match pc.state with
  | PieceState.Home =>
    if d = 6 then (START_POSITIONS pc.color, PieceState.Active)
    else (pc.position, pc.state)
  | PieceState.Finished => (pc.position, pc.state)
  | PieceState.Active =>
    if pc.position < 100 then
      let dist := (PRE_HOME_POSITIONS pc.color - pc.position + 52) % 52
      if dist < d then
        let idx := d - dist - 1
        if idx = 5 then (105, PieceState.Finished)
        else if idx < 5 then (100 + idx, PieceState.Active)
        else (pc.position, pc.state)
      else ((pc.position - 1 + d) % 52 + 1, PieceState.Active)
    else
      let np := pc.position + d
      if np = 105 then (np, PieceState.Finished)
      else if np < 106 then (np, PieceState.Active)
      else (pc.position, pc.state)

/-! Invariants and reachability. -/

/-- Well-formedness of a piece state/position pair: state Home exactly at
position -1, state Finished exactly at position 105, and an Active piece
stands on a main-path cell 1..52 or a non-final home-stretch cell
100..104. -/
def WfSP (s : PieceState) (p : ℤ) : Prop :=
  (s = PieceState.Home ↔ p = -1) ∧
  (s = PieceState.Finished ↔ p = 105) ∧
  (s = PieceState.Active → (1 ≤ p ∧ p ≤ 52) ∨ (100 ≤ p ∧ p ≤ 104))

instance (s : PieceState) (p : ℤ) : Decidable (WfSP s p) := by
  unfold WfSP; infer_instance

/-- Well-formedness of one piece. -/
def WfPiece (pc : Piece) : Prop := WfSP pc.state pc.position

instance (pc : Piece) : Decidable (WfPiece pc) := by
  unfold WfPiece; infer_instance

/-- Every piece of every player is well formed. -/
def PiecesOk (g : GameState) : Prop :=
  ∀ p ∈ g.players, ∀ pc ∈ p.pieces, WfPiece pc

/-- A set dice value is between 1 and 6. -/
def DiceOk (g : GameState) : Prop :=
  ∀ d, g.diceValue = some d → 1 ≤ d ∧ d ≤ 6

/-- A set dice value implies the roll animation has resolved. -/
def DiceNotRolling (g : GameState) : Prop :=
  g.diceValue ≠ none → g.isRolling = false

/-- A cleared dice value comes with a cleared movable set. -/
def MovableDice (g : GameState) : Prop :=
  g.diceValue = none → g.movablePieces = []

/-- While a roll is in flight the current player's six streak is 0. -/
def RollingCS (g : GameState) : Prop :=
  g.isRolling = true →
    ∀ p, g.players.get? g.currentPlayerIndex = some p → p.consecutiveSixes = 0

/-- With no dice pending the current player's six streak is 0. -/
def DiceNoneCS (g : GameState) : Prop :=
  g.diceValue = none →
    ∀ p, g.players.get? g.currentPlayerIndex = some p → p.consecutiveSixes = 0

/-- During setup the current seat is still index 0. -/
def SetupCur (g : GameState) : Prop :=
  g.gameStatus = GameStatus.Setup → g.currentPlayerIndex = 0

/-- The inductive invariant carried through every exported operation. -/
def Inv (g : GameState) : Prop :=
  PiecesOk g ∧ DiceOk g ∧ DiceNotRolling g ∧ MovableDice g ∧
    RollingCS g ∧ DiceNoneCS g ∧ SetupCur g

/-- One application of an exported rule-engine operation that completed
without throwing.  A `completeRoll` step carries the injected random
sample, always in 1..6 as produced by `Math.floor(Math.random()*6)+1`. -/
inductive Step (g : GameState) : GameState → Prop where
  | ofAddPlayer (pid nm : String) (gNext : GameState)
      (h : addPlayer g pid nm = some gNext) : Step g gNext
  | ofStartGame (req : Option String) (gNext : GameState)
      (h : startGame g req = some gNext) : Step g gNext
  | ofInitiateRoll (pid : String) (gNext : GameState)
      (h : initiateRoll g pid = some gNext) : Step g gNext
  | ofCompleteRoll (pid : String) (rand : ℕ) (gNext : GameState) (ret : Option Bool)
      (h1 : 1 ≤ rand) (h2 : rand ≤ 6)
      (h : completeRoll g pid rand = some (gNext, ret)) : Step g gNext
  | ofMovePiece (pid : String) (pieceId : ℕ) (gNext : GameState)
      (h : movePiece g pid pieceId = some gNext) : Step g gNext
  | ofLeaveGame (pid : String) (gNext : GameState)
      (h : leaveGame g pid = some gNext) : Step g gNext
  | ofHandleMissedTurn (gNext : GameState)
      (h : handleMissedTurn g = some gNext) : Step g gNext
  | ofAdvanceTurn (gNext : GameState)
      (h : advanceTurn g = some gNext) : Step g gNext
  | ofSendChat (pid text : String) (msgId time : ℕ) (gNext : GameState)
      (h : sendChatMessage g pid text msgId time = some gNext) : Step g gNext

/-- States reachable from a fresh game by the exported operations.  A
fresh game has `max_players` 2 or 4 (spec section 3, and the server's
room seeding); the source's `createNewGame` with non-empty
`options.players` is the empty game followed by `addPlayer` steps. -/
inductive Reachable : GameState → Prop where
  | fresh (gameId : String) (hostId : Option String) (gameType : String)
      (maxPlayers : ℕ) (tournamentId : Option String)
      (h : maxPlayers = 2 ∨ maxPlayers = 4) :
      Reachable (createNewGame gameId hostId gameType maxPlayers tournamentId)
  | step (g gNext : GameState) (h1 : Reachable g) (h2 : Step g gNext) : Reachable gNext

/-! A concrete two-player game trace, used by the witnesses below.
`orElse` and `fstOf` unwrap the `Option` results; every unwrap in this
trace is of a `some` (checked by the `rfl`/`decide` facts later). -/

/-- Unwrap an operation result, keeping the previous state on `none`. -/
def orElse (o : Option GameState) (fallback : GameState) : GameState :=
  o.getD fallback

/-- Unwrap a `completeRoll` result, keeping the previous state on `none`. -/
def fstOf (o : Option (GameState × Option Bool)) (fallback : GameState) : GameState :=
  match o with
  | some p => p.1
  | none => fallback

def t0 : GameState := createNewGame "G1" (some "A") "manual" 2 none
def t1 : GameState := orElse (addPlayer t0 "A" "Alice") t0
def t2 : GameState := orElse (addPlayer t1 "B" "Bob") t1
def t3 : GameState := orElse (startGame t2 (some "A")) t2
def t4 : GameState := orElse (initiateRoll t3 "A") t3
def t5 : GameState := fstOf (completeRoll t4 "A" 1) t4
def t6 : GameState := orElse (advanceTurn t5) t5
def t7 : GameState := orElse (initiateRoll t6 "B") t6
def t8 : GameState := fstOf (completeRoll t7 "B" 1) t7
def t9 : GameState := orElse (advanceTurn t8) t8
def t10 : GameState := orElse (initiateRoll t9 "A") t9
def t11 : GameState := fstOf (completeRoll t10 "A" 1) t10
def t12 : GameState := orElse (advanceTurn t11) t11
def t13 : GameState := orElse (initiateRoll t12 "B") t12
def t14 : GameState := fstOf (completeRoll t13 "B" 1) t13
def t15 : GameState := orElse (advanceTurn t14) t14
def t16 : GameState := orElse (initiateRoll t15 "A") t15
def t17 : GameState := fstOf (completeRoll t16 "A" 1) t16
def t18 : GameState := orElse (advanceTurn t17) t17
def t19 : GameState := orElse (initiateRoll t18 "B") t18
def t20 : GameState := fstOf (completeRoll t19 "B" 1) t19
def t21 : GameState := orElse (advanceTurn t20) t20
def t22 : GameState := orElse (initiateRoll t21 "A") t21
def t23 : GameState := fstOf (completeRoll t22 "A" 1) t22
def t24 : GameState := orElse (advanceTurn t23) t23
def t25 : GameState := orElse (initiateRoll t24 "B") t24
def t26 : GameState := fstOf (completeRoll t25 "B" 1) t25
def t27 : GameState := orElse (advanceTurn t26) t26
def t28 : GameState := orElse (initiateRoll t27 "A") t27
def t29 : GameState := fstOf (completeRoll t28 "A" 1) t28
def t30 : GameState := orElse (movePiece t29 "A" 4) t29
def t31 : GameState := orElse (initiateRoll t30 "A") t30
def t32 : GameState := fstOf (completeRoll t31 "A" 6) t31
def t33 : GameState := orElse (movePiece t32 "A" 4) t32
def t34 : GameState := orElse (initiateRoll t33 "A") t33
def t35 : GameState := fstOf (completeRoll t34 "A" 6) t34
def t36 : GameState := orElse (movePiece t35 "A" 4) t35
def t37 : GameState := orElse (initiateRoll t36 "A") t36
def t38 : GameState := fstOf (completeRoll t37 "A" 1) t37
def t39 : GameState := orElse (movePiece t38 "A" 4) t38
def t40 : GameState := orElse (initiateRoll t39 "B") t39
def t41 : GameState := fstOf (completeRoll t40 "B" 1) t40
def t42 : GameState := orElse (movePiece t41 "B" 8) t41
def t43 : GameState := orElse (initiateRoll t42 "B") t42
def t44 : GameState := fstOf (completeRoll t43 "B" 3) t43
def t45 : GameState := orElse (movePiece t44 "B" 8) t44
def t46 : GameState := orElse (initiateRoll t45 "A") t45
def t47 : GameState := fstOf (completeRoll t46 "A" 6) t46
def t48 : GameState := orElse (movePiece t47 "A" 4) t47
def t49 : GameState := orElse (initiateRoll t48 "A") t48
def t50 : GameState := fstOf (completeRoll t49 "A" 6) t49
def t51 : GameState := orElse (movePiece t50 "A" 4) t50
def t52 : GameState := orElse (initiateRoll t51 "A") t51
def t53 : GameState := fstOf (completeRoll t52 "A" 4) t52
def t54 : GameState := orElse (movePiece t53 "A" 4) t53
def t55 : GameState := orElse (advanceTurn t54) t54
def t56 : GameState := orElse (handleMissedTurn t55) t55
def t57 : GameState := orElse (initiateRoll t56 "A") t56
def t58 : GameState := fstOf (completeRoll t57 "A" 2) t57
def t59 : GameState := orElse (movePiece t58 "A" 4) t58
def t60 : GameState := orElse (handleMissedTurn t59) t59
def t61 : GameState := orElse (initiateRoll t60 "A") t60
def t62 : GameState := fstOf (completeRoll t61 "A" 2) t61
def t63 : GameState := orElse (movePiece t62 "A" 4) t62
def t64 : GameState := orElse (handleMissedTurn t63) t63
def t65 : GameState := orElse (initiateRoll t64 "A") t64
def t66 : GameState := fstOf (completeRoll t65 "A" 2) t65
def t67 : GameState := orElse (movePiece t66 "A" 4) t66
def t68 : GameState := orElse (handleMissedTurn t67) t67
def t69 : GameState := orElse (initiateRoll t68 "A") t68
def t70 : GameState := fstOf (completeRoll t69 "A" 2) t69
def t71 : GameState := orElse (movePiece t70 "A" 4) t70

/-- A rogue setup-phase roll: `initiateRoll` and `completeRoll` do not
check the game status, so a host in a Setup lobby can roll. -/
def cE1 : GameState := orElse (initiateRoll t2 "A") t2

/-- The state after the rogue setup-phase roll resolves with sample 3:
the dice is set while the status is still Setup. -/
def cE2 : GameState := fstOf (completeRoll cE1 "A" 3) cE1

/-- A concrete player and piece of the reachable lobby `t2`, used by the
C6 witness. -/
def pW : Player := t2.players.getD 0 (createPlayer "" "" PlayerColor.Red false)

def pcW : Piece := pW.pieces.getD 0 ⟨0, PlayerColor.Red, PieceState.Active, 0⟩

/-! List helper lemmas. -/

theorem get?_some_lt {α : Type} {l : List α} {i : ℕ} {b : α}
    (h : l.get? i = some b) : i < l.length := by
  by_contra hc
  push_neg at hc
  rw [List.get?_eq_getElem?, List.getElem?_eq_none hc] at h
  cases h

theorem get?_set_self {α : Type} {l : List α} {i : ℕ} (a : α)
    (h : i < l.length) : (l.set i a).get? i = some a := by
  rw [List.get?_eq_getElem?]
  simp [h]

theorem get?_set_of_ne {α : Type} {l : List α} {i j : ℕ} (a : α) (h : i ≠ j) :
    (l.set i a).get? j = l.get? j := by
  rw [List.get?_eq_getElem?, List.get?_eq_getElem?, List.getElem?_set_ne h]

/-! Well-formedness is preserved by the position computation. -/

/-- The target of a move of a well-formed piece by 0 ≤ d ≤ 6 is again a
well-formed state/position pair (d = 0 is the null-dice coercion). -/
theorem wf_target (c : PlayerColor) (s : PieceState) (p d : ℤ)
    (hwf : WfSP s p) (h0 : 0 ≤ d) (h6 : d ≤ 6) :
    WfSP (getNewPositionInfo ⟨0, c, s, p⟩ d).2 (getNewPositionInfo ⟨0, c, s, p⟩ d).1 := by
  obtain ⟨hH, hF, hA⟩ := hwf
  cases s with
  | Home =>
    have hp : p = -1 := hH.mp rfl
    subst hp
    interval_cases d <;> cases c <;> decide
  | Finished =>
    have hp : p = 105 := hF.mp rfl
    subst hp
    interval_cases d <;> cases c <;> decide
  | Active =>
    rcases hA rfl with ⟨hlo, hhi⟩ | ⟨hlo, hhi⟩ <;>
      (cases c <;> interval_cases p <;> interval_cases d <;> decide)

/-- `wf_target` for an arbitrary piece record. -/
theorem wf_move (pc : Piece) (d : ℤ) (hwf : WfPiece pc) (h0 : 0 ≤ d) (h6 : d ≤ 6) :
    WfSP (getNewPositionInfo pc d).2 (getNewPositionInfo pc d).1 := by
  obtain ⟨i, c, s, p⟩ := pc
  have hid : getNewPositionInfo ⟨i, c, s, p⟩ d = getNewPositionInfo ⟨0, c, s, p⟩ d := rfl
  rw [hid]
  exact wf_target c s p d hwf h0 h6

/-! Invariant preservation, operation by operation. -/

/-- Transfer `Inv` along a state whose rule-relevant fields agree. -/
theorem Inv.of_fields {g g2 : GameState} (h : Inv g)
    (hp : g2.players = g.players) (hd : g2.diceValue = g.diceValue)
    (hr : g2.isRolling = g.isRolling) (hm : g2.movablePieces = g.movablePieces)
    (hc : g2.currentPlayerIndex = g.currentPlayerIndex)
    (hst : g2.gameStatus = g.gameStatus ∨ g2.gameStatus ≠ GameStatus.Setup) : Inv g2 := by
  obtain ⟨h1, h2, h3, h4, h5, h6, h7⟩ := h
  refine ⟨?_, ?_, ?_, ?_, ?_, ?_, ?_⟩
  · intro p hpm
    exact h1 p (hp ▸ hpm)
  · intro dv hdv
    exact h2 dv (hd ▸ hdv)
  · intro hne
    rw [hr]
    exact h3 (hd ▸ hne)
  · intro hdn
    rw [hm]
    exact h4 (hd ▸ hdn)
  · intro hro p hgp
    refine h5 (hr ▸ hro) p ?_
    rw [← hp, ← hc]
    exact hgp
  · intro hdn p hgp
    refine h6 (hd ▸ hdn) p ?_
    rw [← hp, ← hc]
    exact hgp
  · intro hset
    rcases hst with hst | hst
    · rw [hc]
      exact h7 (hst ▸ hset)
    · exact absurd hset hst

/-- The seek loop never leaves the array bounds it starts in. -/
theorem seekNextIndex_lt (l : List Player) :
    ∀ (fuel idx : ℕ), idx < l.length → seekNextIndex l idx fuel < l.length := by
  intro fuel
  induction fuel with
  | zero =>
    intro idx h
    exact h
  | succ r ih =>
    intro idx h
    unfold seekNextIndex
    cases hg : l.get? idx with
    | none => simpa [hg] using h
    | some p =>
      simp only [hg]
      split
      · exact ih _ (Nat.mod_lt _ (by omega))
      · exact h

theorem get?_isSome_of_lt {α : Type} {l : List α} {i : ℕ} (h : i < l.length) :
    ∃ a, l.get? i = some a := by
  cases hg : l.get? i with
  | none =>
    rw [List.get?_eq_none] at hg
    omega
  | some a => exact ⟨a, rfl⟩

/-- `advanceTurn` preserves the invariant. -/
theorem inv_advanceTurn {g gNext : GameState} (h : Inv g)
    (hs : advanceTurn g = some gNext) : Inv gNext := by
  simp only [advanceTurn] at hs
  split at hs
  · -- status is not Playing: no-op
    injection hs with he
    subst he
    exact h
  · split at hs
    · cases hs
    · rename_i hplay hlen
      push_neg at hplay
      split at hs
      · -- no active player left: the game finishes
        injection hs with he
        subst he
        refine Inv.of_fields h (by simp [logTurn]) (by simp [logTurn]) (by simp [logTurn])
          (by simp [logTurn]) (by simp [logTurn]) (Or.inr (by simp [logTurn]))
      · -- normal seat change
        split at hs
        · cases hs
        · rename_i np hnp
          injection hs with he
          subst he
          have hlt : seekNextIndex g.players ((g.currentPlayerIndex + 1) % g.players.length)
              g.players.length < g.players.length :=
            seekNextIndex_lt g.players g.players.length _ (Nat.mod_lt _ (by omega))
          obtain ⟨h1, h2, h3, h4, h5, h6, h7⟩ := h
          refine ⟨?_, ?_, ?_, ?_, ?_, ?_, ?_⟩
          · intro p hpm pc hpc
            rcases List.mem_or_eq_of_mem_set hpm with hpm | rfl
            · exact h1 p hpm pc hpc
            · exact h1 np (List.get?_mem hnp) pc hpc
          · intro dv hdv
            cases hdv
          · intro _
            rfl
          · intro _
            rfl
          · intro hro
            cases hro
          · intro _ p hgp
            rw [get?_set_self _ hlt] at hgp
            injection hgp with he2
            subst he2
            rfl
          · intro hset
            simp only [] at hset
            rw [hset] at hplay
            cases hplay

/-- `advanceTurn` never throws when the players list is non-empty. -/
theorem advanceTurn_isSome (g : GameState) (hne : g.players.length ≠ 0) :
    (advanceTurn g).isSome := by
  simp only [advanceTurn]
  by_cases hst : g.gameStatus ≠ GameStatus.Playing
  · rw [if_pos hst]
    rfl
  · rw [if_neg hst, if_neg hne]
    have hlt : seekNextIndex g.players ((g.currentPlayerIndex + 1) % g.players.length)
        g.players.length < g.players.length :=
      seekNextIndex_lt g.players g.players.length _ (Nat.mod_lt _ (by omega))
    obtain ⟨np, hnp⟩ := get?_isSome_of_lt hlt
    rw [hnp]
    by_cases hact : (g.players.filter fun p => ¬p.isRemoved ∧ ¬p.hasFinished).length = 0 ∧
        1 < g.players.length
    · rw [if_pos hact]
      rfl
    · rw [if_neg hact]
      rfl

/-- `advanceTurn` only ever touches the players array by resetting one
player's `consecutiveSixes`; in particular pieces, ids and removal flags
are untouched. -/
theorem advanceTurn_players {g gNext : GameState} (hs : advanceTurn g = some gNext) :
    gNext.players = g.players ∨
      ∃ j np, g.players.get? j = some np ∧
        gNext.players = g.players.set j { np with consecutiveSixes := 0 } := by
  simp only [advanceTurn] at hs
  split at hs
  · injection hs with he
    subst he
    exact Or.inl rfl
  · split at hs
    · cases hs
    · split at hs
      · injection hs with he
        subst he
        exact Or.inl (by simp [logTurn])
      · split at hs
        · cases hs
        · rename_i np hnp
          injection hs with he
          subst he
          exact Or.inr ⟨_, np, hnp, rfl⟩

theorem get?_append_one {α : Type} (a b : α) :
    ∀ (l : List α) (i : ℕ), (l ++ [a]).get? i = some b → l.get? i = some b ∨ b = a := by
  intro l
  induction l with
  | nil =>
    intro i h
    cases i with
    | zero =>
      injection h with h
      exact Or.inr h.symm
    | succ n => simp at h
  | cons x xs ih =>
    intro i h
    cases i with
    | zero => exact Or.inl h
    | succ n => exact ih n h

theorem mem_updatePieceById {l : List Piece} {pieceId : ℕ} {pos : ℤ} {st : PieceState}
    {pc : Piece} (h : pc ∈ updatePieceById l pieceId pos st) :
    pc ∈ l ∨ ∃ pc0 ∈ l, pc = { pc0 with position := pos, state := st } := by
  induction l with
  | nil => simp [updatePieceById] at h
  | cons x xs ih =>
    unfold updatePieceById at h
    split at h
    · rcases List.mem_cons.mp h with rfl | hm
      · exact Or.inr ⟨x, List.mem_cons_self x xs, rfl⟩
      · exact Or.inl (List.mem_cons_of_mem x hm)
    · rcases List.mem_cons.mp h with rfl | hm
      · exact Or.inl (List.mem_cons_self pc xs)
      · rcases ih hm with hin | ⟨pc0, hpc0, rfl⟩
        · exact Or.inl (List.mem_cons_of_mem x hin)
        · exact Or.inr ⟨pc0, List.mem_cons_of_mem x hpc0, rfl⟩

theorem mem_updatePlayerById {l : List Player} {playerId : String} {f : Player → Player}
    {p : Player} (h : p ∈ updatePlayerById l playerId f) :
    p ∈ l ∨ ∃ p0 ∈ l, p = f p0 := by
  induction l with
  | nil => simp [updatePlayerById] at h
  | cons x xs ih =>
    unfold updatePlayerById at h
    split at h
    · rcases List.mem_cons.mp h with rfl | hm
      · exact Or.inr ⟨x, List.mem_cons_self x xs, rfl⟩
      · exact Or.inl (List.mem_cons_of_mem x hm)
    · rcases List.mem_cons.mp h with rfl | hm
      · exact Or.inl (List.mem_cons_self p xs)
      · rcases ih hm with hin | ⟨p0, hp0, rfl⟩
        · exact Or.inl (List.mem_cons_of_mem x hin)
        · exact Or.inr ⟨p0, List.mem_cons_of_mem x hp0, rfl⟩

theorem get?_updatePlayerById (playerId : String) (f : Player → Player) :
    ∀ (l : List Player) (i : ℕ),
      (updatePlayerById l playerId f).get? i = l.get? i ∨
        ∃ p, l.get? i = some p ∧ (updatePlayerById l playerId f).get? i = some (f p) := by
  intro l
  induction l with
  | nil =>
    intro i
    exact Or.inl rfl
  | cons x xs ih =>
    intro i
    unfold updatePlayerById
    split
    · cases i with
      | zero => exact Or.inr ⟨x, rfl, rfl⟩
      | succ n => exact Or.inl rfl
    · cases i with
      | zero => exact Or.inl rfl
      | succ n => exact ih n

theorem mem_applyCaptures {l : List Player} {c : PlayerColor} {pos : ℤ} {p : Player}
    (h : p ∈ applyCaptures l c pos) :
    ∃ p0 ∈ l, p = p0 ∨ p.pieces = p0.pieces.map fun pc =>
      if pc.position = pos then { pc with state := PieceState.Home, position := -1 } else pc := by
  unfold applyCaptures at h
  rcases List.mem_map.mp h with ⟨p0, hp0, he⟩
  refine ⟨p0, hp0, ?_⟩
  by_cases hc : p0.color = c
  · rw [if_pos hc] at he
    exact Or.inl he.symm
  · rw [if_neg hc] at he
    right
    rw [← he]

theorem rollCounters_pieces (p : Player) (d : ℕ) : (rollCounters p d).pieces = p.pieces := by
  unfold rollCounters
  split <;> rfl

theorem rollCounters_cs (p : Player) (d : ℕ) :
    (rollCounters p d).consecutiveSixes = if d = 6 then p.consecutiveSixes + 1 else 0 := by
  unfold rollCounters
  split <;> simp [*]

theorem rollCounters_rws (p : Player) (d : ℕ) :
    (rollCounters p d).rollsWithoutSix =
      if d = 6 then 0
      else if p.pieces.all fun pc => pc.state = PieceState.Home then p.rollsWithoutSix + 1
      else p.rollsWithoutSix := by
  unfold rollCounters
  split <;> rfl

theorem ite_pair {c : Prop} [Decidable c] {α β : Type} (x : α) (a b : β) :
    (if c then some (x, a) else some (x, b)) = some (x, if c then a else b) := by
  split <;> rfl

/-- `addPlayer` preserves the invariant. -/
theorem inv_addPlayer {g gNext : GameState} {pid nm : String} (h : Inv g)
    (hs : addPlayer g pid nm = some gNext) : Inv gNext := by
  unfold addPlayer at hs
  split at hs
  · injection hs with he
    subst he
    exact h
  · split at hs
    · injection hs with he
      subst he
      exact h
    · split at hs
      · injection hs with he
        subst he
        exact h
      · simp only [] at hs
        split at hs
        · injection hs with he
          subst he
          exact h
        · rename_i color hcolor
          injection hs with he
          subst he
          obtain ⟨h1, h2, h3, h4, h5, h6, h7⟩ := h
          refine ⟨?_, h2, h3, h4, ?_, ?_, h7⟩
          · intro p hpm pc hpc
            rcases List.mem_append.mp hpm with hpm | hpm
            · exact h1 p hpm pc hpc
            · rcases List.mem_singleton.mp hpm with rfl
              simp only [createPlayer, List.mem_map] at hpc
              obtain ⟨i, _, rfl⟩ := hpc
              exact (by decide : WfSP PieceState.Home (-1))
          · intro hro p hgp
            rcases get?_append_one _ _ _ _ hgp with hgp | rfl
            · exact h5 hro p hgp
            · rfl
          · intro hdn p hgp
            rcases get?_append_one _ _ _ _ hgp with hgp | rfl
            · exact h6 hdn p hgp
            · rfl

/-- `startGame` preserves the invariant. -/
theorem inv_startGame {g gNext : GameState} {req : Option String} (h : Inv g)
    (hs : startGame g req = some gNext) : Inv gNext := by
  unfold startGame at hs
  split at hs
  · injection hs with he
    subst he
    exact Inv.of_fields h rfl rfl rfl rfl rfl (Or.inl rfl)
  · split at hs
    · injection hs with he
      subst he
      exact Inv.of_fields h rfl rfl rfl rfl rfl (Or.inl rfl)
    · rename_i hg1 hg2
      push_neg at hg2
      obtain ⟨hsetup, hlen⟩ := hg2
      split at hs
      · cases hs
      · rename_i p0 hp0
        injection hs with he
        subst he
        obtain ⟨h1, h2, h3, h4, h5, h6, h7⟩ := h
        have hcur : g.currentPlayerIndex = 0 := h7 hsetup
        refine ⟨h1, h2, h3, h4, ?_, ?_, ?_⟩
        · intro hro p hgp
          refine h5 hro p ?_
          rw [hcur]
          exact hgp
        · intro hdn p hgp
          refine h6 hdn p ?_
          rw [hcur]
          exact hgp
        · intro hset
          cases hset

/-- `initiateRoll` preserves the invariant. -/
theorem inv_initiateRoll {g gNext : GameState} {pid : String} (h : Inv g)
    (hs : initiateRoll g pid = some gNext) : Inv gNext := by
  unfold initiateRoll at hs
  split at hs
  · cases hs
  · rename_i cp hcp
    split at hs
    · injection hs with he
      subst he
      exact h
    · rename_i hguard
      push_neg at hguard
      obtain ⟨hpid, hdice, hroll⟩ := hguard
      injection hs with he
      subst he
      obtain ⟨h1, h2, h3, h4, h5, h6, h7⟩ := h
      refine ⟨h1, h2, ?_, ?_, ?_, ?_, h7⟩
      · intro hne
        exact absurd hdice hne
      · intro _
        exact h4 hdice
      · intro _ p hgp
        exact h6 hdice p hgp
      · intro _ p hgp
        exact h6 hdice p hgp

/-- `sendChatMessage` preserves the invariant. -/
theorem inv_sendChat {g gNext : GameState} {pid text : String} {msgId time : ℕ} (h : Inv g)
    (hs : sendChatMessage g pid text msgId time = some gNext) : Inv gNext := by
  unfold sendChatMessage at hs
  split at hs
  · injection hs with he
    subst he
    exact h
  · injection hs with he
    subst he
    exact Inv.of_fields h rfl rfl rfl rfl rfl (Or.inl rfl)

/-- Invariant transfer to a state whose players were rewritten by
`updatePlayerById` with a pieces- and streak-preserving function. -/
theorem inv_update_players {g : GameState} (h : Inv g) (pid : String) (f : Player → Player)
    (hf : ∀ p, (f p).pieces = p.pieces ∧ (f p).consecutiveSixes = p.consecutiveSixes)
    {g2 : GameState}
    (hp : g2.players = updatePlayerById g.players pid f)
    (hd : g2.diceValue = g.diceValue) (hr : g2.isRolling = g.isRolling)
    (hm : g2.movablePieces = g.movablePieces)
    (hc : g2.currentPlayerIndex = g.currentPlayerIndex)
    (hst : g2.gameStatus = g.gameStatus ∨ g2.gameStatus ≠ GameStatus.Setup) : Inv g2 := by
  obtain ⟨h1, h2, h3, h4, h5, h6, h7⟩ := h
  refine ⟨?_, ?_, ?_, ?_, ?_, ?_, ?_⟩
  · intro p hpm pc hpc
    rw [hp] at hpm
    rcases mem_updatePlayerById hpm with hin | ⟨p0, hp0, rfl⟩
    · exact h1 p hin pc hpc
    · rw [(hf p0).1] at hpc
      exact h1 p0 hp0 pc hpc
  · intro d hd2
    exact h2 d (hd ▸ hd2)
  · intro hne
    rw [hr]
    exact h3 (hd ▸ hne)
  · intro hdn
    rw [hm]
    exact h4 (hd ▸ hdn)
  · intro hro p hgp
    rw [hp, hc] at hgp
    rcases get?_updatePlayerById pid f g.players g.currentPlayerIndex with heq | ⟨q, hq1, hq2⟩
    · rw [heq] at hgp
      exact h5 (hr ▸ hro) p hgp
    · rw [hq2] at hgp
      injection hgp with he
      subst he
      rw [(hf q).2]
      exact h5 (hr ▸ hro) q hq1
  · intro hdn p hgp
    rw [hp, hc] at hgp
    rcases get?_updatePlayerById pid f g.players g.currentPlayerIndex with heq | ⟨q, hq1, hq2⟩
    · rw [heq] at hgp
      exact h6 (hd ▸ hdn) p hgp
    · rw [hq2] at hgp
      injection hgp with he
      subst he
      rw [(hf q).2]
      exact h6 (hd ▸ hdn) q hq1
  · intro hset
    rcases hst with hst | hst
    · rw [hc]
      exact h7 (hst ▸ hset)
    · exact absurd hset hst

/-- Invariant transfer to a state whose current player was replaced by
one with the same pieces and six streak. -/
theorem inv_set_current {g : GameState} (h : Inv g) (cp0 cp1 : Player)
    (hcp : g.players.get? g.currentPlayerIndex = some cp0)
    (hpieces : cp1.pieces = cp0.pieces) (hcs : cp1.consecutiveSixes = cp0.consecutiveSixes)
    {g2 : GameState}
    (hp : g2.players = g.players.set g.currentPlayerIndex cp1)
    (hd : g2.diceValue = g.diceValue) (hr : g2.isRolling = g.isRolling)
    (hm : g2.movablePieces = g.movablePieces)
    (hc : g2.currentPlayerIndex = g.currentPlayerIndex)
    (hst : g2.gameStatus = g.gameStatus ∨ g2.gameStatus ≠ GameStatus.Setup) : Inv g2 := by
  obtain ⟨h1, h2, h3, h4, h5, h6, h7⟩ := h
  have hlt : g.currentPlayerIndex < g.players.length := get?_some_lt hcp
  refine ⟨?_, ?_, ?_, ?_, ?_, ?_, ?_⟩
  · intro p hpm pc hpc
    rw [hp] at hpm
    rcases List.mem_or_eq_of_mem_set hpm with hin | rfl
    · exact h1 p hin pc hpc
    · rw [hpieces] at hpc
      exact h1 cp0 (List.get?_mem hcp) pc hpc
  · intro d hd2
    exact h2 d (hd ▸ hd2)
  · intro hne
    rw [hr]
    exact h3 (hd ▸ hne)
  · intro hdn
    rw [hm]
    exact h4 (hd ▸ hdn)
  · intro hro p hgp
    rw [hp, hc, get?_set_self _ hlt] at hgp
    injection hgp with he
    subst he
    rw [hcs]
    exact h5 (hr ▸ hro) cp0 hcp
  · intro hdn p hgp
    rw [hp, hc, get?_set_self _ hlt] at hgp
    injection hgp with he
    subst he
    rw [hcs]
    exact h6 (hd ▸ hdn) cp0 hcp
  · intro hset
    rcases hst with hst | hst
    · rw [hc]
      exact h7 (hst ▸ hset)
    · exact absurd hset hst

/-- `completeRoll` preserves the invariant. -/
theorem inv_completeRoll {g gNext : GameState} {pid : String} {rand : ℕ} {ret : Option Bool}
    (h : Inv g) (hr1 : 1 ≤ rand) (hr6 : rand ≤ 6)
    (hs : completeRoll g pid rand = some (gNext, ret)) : Inv gNext := by
  unfold completeRoll at hs
  split at hs
  · cases hs
  · rename_i cp0 hcp
    split at hs
    · injection hs with he
      injection he with he1 he2
      subst he1
      exact h
    · simp only [] at hs
      set dv : ℕ := rolledDice { cp0 with inactiveTurns := 0 } rand with hdv
      set cp2 : Player := rollCounters { cp0 with inactiveTurns := 0 } dv with hcp2
      have hlt : g.currentPlayerIndex < g.players.length := get?_some_lt hcp
      obtain ⟨h1, h2, h3, h4, h5, h6, h7⟩ := h
      have hdvb : 1 ≤ dv ∧ dv ≤ 6 := by
        rw [hdv]
        unfold rolledDice
        split
        · exact ⟨by norm_num, by norm_num⟩
        · exact ⟨hr1, hr6⟩
      have hinv1 : Inv { g with players := g.players.set g.currentPlayerIndex cp2,
                                diceValue := some dv, isRolling := false } := by
        refine ⟨?_, ?_, ?_, ?_, ?_, ?_, ?_⟩
        · intro p hpm pc hpc
          rcases List.mem_or_eq_of_mem_set hpm with hin | rfl
          · exact h1 p hin pc hpc
          · rw [hcp2, rollCounters_pieces] at hpc
            exact h1 cp0 (List.get?_mem hcp) pc hpc
        · intro d hd2
          injection hd2 with hd2
          subst hd2
          exact hdvb
        · intro _
          rfl
        · intro hn
          cases hn
        · intro hro
          cases hro
        · intro hn
          cases hn
        · intro hset
          exact h7 hset
      split at hs
      · -- three-sixes penalty: the turn advances
        split at hs
        · cases hs
        · rename_i g3 hg3
          injection hs with he
          injection he with he1 he2
          subst he1
          refine inv_advanceTurn ?_ hg3
          exact Inv.of_fields hinv1 (by simp [logTurn]) (by simp [logTurn]) (by simp [logTurn])
            (by simp [logTurn]) (by simp [logTurn]) (Or.inl (by simp [logTurn]))
      · -- normal roll: the movable set is published
        split at hs <;>
          · injection hs with he
            injection he with he1 he2
            subst he1
            refine ⟨hinv1.1, hinv1.2.1, fun _ => rfl, ?_, ?_, ?_, hinv1.2.2.2.2.2.2⟩
            · intro hn
              simp [logTurn] at hn
            · intro hro
              simp [logTurn] at hro
            · intro hn
              simp [logTurn] at hn

/-- `leaveGame` preserves the invariant. -/
theorem inv_leaveGame {g gNext : GameState} {pid : String} (h : Inv g)
    (hs : leaveGame g pid = some gNext) : Inv gNext := by
  unfold leaveGame at hs
  split at hs
  · injection hs with he
    subst he
    exact h
  · rename_i player hfind
    split at hs
    · injection hs with he
      subst he
      exact h
    · simp only [] at hs
      have hf : ∀ p : Player, ({ p with isRemoved := true } : Player).pieces = p.pieces ∧
          ({ p with isRemoved := true } : Player).consecutiveSixes = p.consecutiveSixes :=
        fun p => ⟨rfl, rfl⟩
      split at hs
      · -- a lone survivor wins
        injection hs with he
        subst he
        exact inv_update_players h pid _ hf (by simp [logTurn]) (by simp [logTurn])
          (by simp [logTurn]) (by simp [logTurn]) (by simp [logTurn]) (Or.inr (by simp [logTurn]))
      · split at hs
        · cases hs
        · rename_i cp hget
          split at hs
          · -- the leaver held the seat: the turn advances
            refine inv_advanceTurn ?_ hs
            exact inv_update_players h pid _ hf (by simp [logTurn]) (by simp [logTurn])
              (by simp [logTurn]) (by simp [logTurn]) (by simp [logTurn]) (Or.inl (by simp [logTurn]))
          · injection hs with he
            subst he
            exact inv_update_players h pid _ hf (by simp [logTurn]) (by simp [logTurn])
              (by simp [logTurn]) (by simp [logTurn]) (by simp [logTurn]) (Or.inl (by simp [logTurn]))

/-- `handleMissedTurn` preserves the invariant. -/
theorem inv_handleMissedTurn {g gNext : GameState} (h : Inv g)
    (hs : handleMissedTurn g = some gNext) : Inv gNext := by
  unfold handleMissedTurn at hs
  split at hs
  · injection hs with he
    subst he
    exact h
  · rename_i cp0 hcp
    split at hs
    · injection hs with he
      subst he
      exact h
    · simp only [] at hs
      split at hs
      · refine inv_leaveGame ?_ hs
        exact inv_set_current h cp0 ({ cp0 with inactiveTurns := cp0.inactiveTurns + 1 })
          hcp rfl rfl (by simp [logTurn]) (by simp [logTurn]) (by simp [logTurn])
          (by simp [logTurn]) (by simp [logTurn]) (Or.inl (by simp [logTurn]))
      · refine inv_advanceTurn ?_ hs
        exact inv_set_current h cp0 ({ cp0 with inactiveTurns := cp0.inactiveTurns + 1 })
          hcp rfl rfl (by simp [logTurn]) (by simp [logTurn]) (by simp [logTurn])
          (by simp [logTurn]) (by simp [logTurn]) (Or.inl (by simp [logTurn]))

/-- The capture loop preserves piece well-formedness. -/
theorem piecesOk_applyCaptures {L : List Player} {c : PlayerColor} {x : ℤ}
    (hL : ∀ p ∈ L, ∀ pc ∈ p.pieces, WfPiece pc) :
    ∀ p ∈ applyCaptures L c x, ∀ pc ∈ p.pieces, WfPiece pc := by
  intro p hp pc hpc
  rcases mem_applyCaptures hp with ⟨p0, hp0, rfl | hpieces⟩
  · exact hL p hp0 pc hpc
  · rw [hpieces] at hpc
    rcases List.mem_map.mp hpc with ⟨pc0, hpc0, rfl⟩
    by_cases hx : pc0.position = x
    · rw [if_pos hx]
      exact (by decide : WfSP PieceState.Home (-1))
    · rw [if_neg hx]
      exact hL p0 hp0 pc0 hpc0

/-- Invariant transfer to a piece-well-formed state that keeps the dice
(necessarily set), the roll flag, the seat and the status. -/
theorem inv_of_dice_some {g : GameState} (h : Inv g) (hdice : g.diceValue ≠ none)
    {g2 : GameState} (hwf : PiecesOk g2)
    (hd : g2.diceValue = g.diceValue) (hr : g2.isRolling = g.isRolling)
    (hc : g2.currentPlayerIndex = g.currentPlayerIndex)
    (hst : g2.gameStatus = g.gameStatus ∨ g2.gameStatus ≠ GameStatus.Setup) : Inv g2 := by
  obtain ⟨h1, h2, h3, h4, h5, h6, h7⟩ := h
  refine ⟨hwf, ?_, ?_, ?_, ?_, ?_, ?_⟩
  · intro dv hdv
    exact h2 dv (hd ▸ hdv)
  · intro _
    rw [hr]
    exact h3 hdice
  · intro hn
    exact absurd (hd ▸ hn) hdice
  · intro hro p hgp
    rw [hr, h3 hdice] at hro
    exact Bool.noConfusion hro
  · intro hn
    exact absurd (hd ▸ hn) hdice
  · intro hset
    rcases hst with hst | hst
    · rw [hc]
      exact h7 (hst ▸ hset)
    · exact absurd hset hst

/-- Invariant shape of a bonus-turn state: cleared dice and movable set,
roll flag down, and the seat player's streak reset. -/
theorem inv_bonus {g : GameState} (h : Inv g)
    (hlt : g.currentPlayerIndex < g.players.length)
    (L : List Player) (hL : ∀ p ∈ L, ∀ pc ∈ p.pieces, WfPiece pc)
    (hlen : L.length = g.players.length)
    (cpR : Player) (hcs : cpR.consecutiveSixes = 0)
    (hRwf : ∀ pc ∈ cpR.pieces, WfPiece pc)
    {g2 : GameState}
    (hp : g2.players = L.set g.currentPlayerIndex cpR)
    (hd : g2.diceValue = none) (hr : g2.isRolling = false) (hm : g2.movablePieces = [])
    (hc : g2.currentPlayerIndex = g.currentPlayerIndex)
    (hst : g2.gameStatus = g.gameStatus) : Inv g2 := by
  refine ⟨?_, ?_, ?_, ?_, ?_, ?_, ?_⟩
  · intro p hpm pc hpc
    rw [hp] at hpm
    rcases List.mem_or_eq_of_mem_set hpm with hin | rfl
    · exact hL p hin pc hpc
    · exact hRwf pc hpc
  · intro d hdv
    rw [hd] at hdv
    cases hdv
  · intro _
    exact hr
  · intro _
    exact hm
  · intro hro
    rw [hr] at hro
    exact Bool.noConfusion hro
  · intro _ p hgp
    rw [hp, hc, get?_set_self cpR (by rw [hlen]; exact hlt)] at hgp
    injection hgp with he
    subst he
    exact hcs
  · intro hset
    rw [hst] at hset
    rw [hc]
    exact h.2.2.2.2.2.2 hset

/-- `movePiece` preserves the invariant. -/
theorem inv_movePiece {g gNext : GameState} {pid : String} {pieceId : ℕ} (h : Inv g)
    (hs : movePiece g pid pieceId = some gNext) : Inv gNext := by
  unfold movePiece at hs
  split at hs
  · cases hs
  · rename_i cp0 hcp
    split at hs
    · injection hs with he
      subst he
      exact h
    · rename_i hguard
      push_neg at hguard
      obtain ⟨hpid, hmv⟩ := hguard
      have hlt : g.currentPlayerIndex < g.players.length := get?_some_lt hcp
      have hdice : g.diceValue ≠ none := by
        intro hn
        rw [h.2.2.2.1 hn] at hmv
        exact List.not_mem_nil pieceId hmv
      simp only [logTurn] at hs
      split at hs
      · -- no piece with that id: only the inactivity counter is written
        injection hs with he
        subst he
        exact inv_set_current h cp0 ({ cp0 with inactiveTurns := 0 }) hcp rfl rfl
          rfl rfl rfl rfl rfl (Or.inl rfl)
      · rename_i pieceToMove hfind
        have hd0 : (0:ℤ) ≤ ((g.diceValue.getD 0 : ℕ) : ℤ) ∧
            ((g.diceValue.getD 0 : ℕ) : ℤ) ≤ 6 := by
          cases hdv : g.diceValue with
          | none => exact absurd hdv hdice
          | some v =>
            have hb := h.2.1 v hdv
            constructor
            · positivity
            · simp only [hdv, Option.getD]
              exact_mod_cast hb.2
        have hptm : WfPiece pieceToMove :=
          h.1 cp0 (List.get?_mem hcp) pieceToMove (List.mem_of_find?_eq_some hfind)
        have hwf_new : WfSP
            (getNewPositionInfo pieceToMove ((g.diceValue.getD 0 : ℕ) : ℤ)).2
            (getNewPositionInfo pieceToMove ((g.diceValue.getD 0 : ℕ) : ℤ)).1 :=
          wf_move pieceToMove _ hptm hd0.1 hd0.2
        have hupd_wf : ∀ pc ∈ updatePieceById cp0.pieces pieceId
            (getNewPositionInfo pieceToMove ((g.diceValue.getD 0 : ℕ) : ℤ)).1
            (getNewPositionInfo pieceToMove ((g.diceValue.getD 0 : ℕ) : ℤ)).2, WfPiece pc := by
          intro pc hpc
          rcases mem_updatePieceById hpc with hin | ⟨pc0, hpc0, rfl⟩
          · exact h.1 cp0 (List.get?_mem hcp) pc hin
          · exact hwf_new
        have hset_wf : ∀ cpX : Player, (∀ pc ∈ cpX.pieces, WfPiece pc) →
            ∀ p ∈ g.players.set g.currentPlayerIndex cpX, ∀ pc ∈ p.pieces, WfPiece pc := by
          intro cpX hX p hp pc hpc
          rcases List.mem_or_eq_of_mem_set hp with hin | rfl
          · exact h.1 p hin pc hpc
          · exact hX pc hpc
        rw [if_pos (by decide : (none : Option ℕ) ≠ some 6)] at hs
        split at hs
        · -- all pieces finished: the mover wins
          injection hs with he
          subst he
          refine inv_of_dice_some h hdice ?_ (by split <;> rfl) (by split <;> rfl)
            (by split <;> rfl) (Or.inr (fun hx => GameStatus.noConfusion hx))
          intro p hp pc hpc
          rcases List.mem_or_eq_of_mem_set hp with hin | rfl
          · revert hin
            split <;> split <;> intro hin <;>
              first
                | exact piecesOk_applyCaptures (hset_wf _ hupd_wf) p hin pc hpc
                | exact hset_wf _ hupd_wf p hin pc hpc
          · exact hupd_wf pc hpc
        · -- not a win: resolve the finish test, the capture test, the bonus test
          split at hs
          · rename_i hpf
            split at hs
            · split at hs
              · -- capture path, bonus turn
                injection hs with he
                subst he
                exact inv_bonus h hlt _ (piecesOk_applyCaptures (hset_wf _ hupd_wf))
                  (by simp [applyCaptures]) _ rfl hupd_wf rfl rfl rfl rfl rfl rfl
              · rename_i hbon
                exact absurd (Or.inr (Or.inr hpf)) hbon
            · split at hs
              · -- no capture, bonus turn
                injection hs with he
                subst he
                exact inv_bonus h hlt _ (hset_wf _ hupd_wf) (by simp) _ rfl hupd_wf
                  rfl rfl rfl rfl rfl rfl
              · rename_i hbon
                exact absurd (Or.inr (Or.inr hpf)) hbon
          · rename_i hpf
            split at hs
            · split at hs
              · -- capture path, bonus turn
                injection hs with he
                subst he
                exact inv_bonus h hlt _ (piecesOk_applyCaptures (hset_wf _ hupd_wf))
                  (by simp [applyCaptures]) _ rfl hupd_wf rfl rfl rfl rfl rfl rfl
              · -- capture recorded nothing: the seat advances
                refine inv_advanceTurn ?_ hs
                exact inv_of_dice_some h hdice (piecesOk_applyCaptures (hset_wf _ hupd_wf))
                  rfl rfl rfl (Or.inl rfl)
            · split at hs
              · -- no capture, bonus turn
                injection hs with he
                subst he
                exact inv_bonus h hlt _ (hset_wf _ hupd_wf) (by simp) _ rfl hupd_wf
                  rfl rfl rfl rfl rfl rfl
              · -- ordinary move: the seat advances
                refine inv_advanceTurn ?_ hs
                exact inv_of_dice_some h hdice (hset_wf _ hupd_wf) rfl rfl rfl (Or.inl rfl)

/-- A fresh game satisfies the invariant. -/
theorem inv_createNewGame (gameId : String) (hostId : Option String) (gameType : String)
    (maxPlayers : ℕ) (tournamentId : Option String) :
    Inv (createNewGame gameId hostId gameType maxPlayers tournamentId) := by
  refine ⟨?_, ?_, ?_, ?_, ?_, ?_, ?_⟩
  · intro p hp
    exact absurd hp (List.not_mem_nil p)
  · intro d hd
    cases hd
  · intro _
    rfl
  · intro _
    rfl
  · intro hro
    exact Bool.noConfusion hro
  · intro _ p hgp
    cases hgp
  · intro _
    rfl

/-- Every completed operation preserves the invariant. -/
theorem inv_step {g gNext : GameState} (h : Inv g) (hst : Step g gNext) : Inv gNext := by
  cases hst with
  | ofAddPlayer pid nm gNext hs => exact inv_addPlayer h hs
  | ofStartGame req gNext hs => exact inv_startGame h hs
  | ofInitiateRoll pid gNext hs => exact inv_initiateRoll h hs
  | ofCompleteRoll pid rand gNext ret h1 h2 hs => exact inv_completeRoll h h1 h2 hs
  | ofMovePiece pid pieceId gNext hs => exact inv_movePiece h hs
  | ofLeaveGame pid gNext hs => exact inv_leaveGame h hs
  | ofHandleMissedTurn gNext hs => exact inv_handleMissedTurn h hs
  | ofAdvanceTurn gNext hs => exact inv_advanceTurn h hs
  | ofSendChat pid text msgId time gNext hs => exact inv_sendChat h hs

/-- The invariant holds in every reachable state. -/
theorem reachable_inv {g : GameState} (h : Reachable g) : Inv g := by
  induction h with
  | fresh gameId hostId gameType maxPlayers tournamentId hmp =>
    exact inv_createNewGame gameId hostId gameType maxPlayers tournamentId
  | step g gNext h1 h2 ih => exact inv_step ih h2


/-- Build a `Step` through `orElse` from any operation known to have
completed. -/
theorem step_orElse {g : GameState} {o : Option GameState}
    (mk : ∀ gN, o = some gN → Step g gN) (hsm : o.isSome) : Step g (orElse o g) := by
  cases ho : o with
  | none =>
    rw [ho] at hsm
    cases hsm
  | some gN => exact mk gN ho

/-- Build a `Step` through `fstOf` from a completed roll. -/
theorem step_fstOf {g : GameState} {pid : String} {rand : ℕ}
    (h1 : 1 ≤ rand) (h2 : rand ≤ 6) (hsm : (completeRoll g pid rand).isSome) :
    Step g (fstOf (completeRoll g pid rand) g) := by
  cases ho : completeRoll g pid rand with
  | none =>
    rw [ho] at hsm
    cases hsm
  | some pr => exact Step.ofCompleteRoll pid rand pr.1 pr.2 h1 h2 (ho.trans rfl)


/-- The two-player lobby `t2` is reachable. -/
theorem reachable_t2 : Reachable t2 := by
  have h0 : Reachable t0 := Reachable.fresh "G1" (some "A") "manual" 2 none (Or.inl rfl)
  have h1 : Reachable t1 :=
    Reachable.step t0 t1 h0 (step_orElse (Step.ofAddPlayer "A" "Alice") rfl)
  exact Reachable.step t1 t2 h1 (step_orElse (Step.ofAddPlayer "B" "Bob") rfl)

/-- The pity-rule state `t28` (both players at four sixless rolls, Alice
mid-roll) is reachable. -/
theorem reachable_t28 : Reachable t28 := by
  have h3 : Reachable t3 :=
    Reachable.step t2 t3 reachable_t2 (step_orElse (Step.ofStartGame (some "A")) rfl)
  have h4 : Reachable t4 :=
    Reachable.step t3 t4 h3 (step_orElse (Step.ofInitiateRoll "A") rfl)
  have h5 : Reachable t5 :=
    Reachable.step t4 t5 h4 (step_fstOf (by decide) (by decide) rfl)
  have h6 : Reachable t6 :=
    Reachable.step t5 t6 h5 (step_orElse Step.ofAdvanceTurn rfl)
  have h7 : Reachable t7 :=
    Reachable.step t6 t7 h6 (step_orElse (Step.ofInitiateRoll "B") rfl)
  have h8 : Reachable t8 :=
    Reachable.step t7 t8 h7 (step_fstOf (by decide) (by decide) rfl)
  have h9 : Reachable t9 :=
    Reachable.step t8 t9 h8 (step_orElse Step.ofAdvanceTurn rfl)
  have h10 : Reachable t10 :=
    Reachable.step t9 t10 h9 (step_orElse (Step.ofInitiateRoll "A") rfl)
  have h11 : Reachable t11 :=
    Reachable.step t10 t11 h10 (step_fstOf (by decide) (by decide) rfl)
  have h12 : Reachable t12 :=
    Reachable.step t11 t12 h11 (step_orElse Step.ofAdvanceTurn rfl)
  have h13 : Reachable t13 :=
    Reachable.step t12 t13 h12 (step_orElse (Step.ofInitiateRoll "B") rfl)
  have h14 : Reachable t14 :=
    Reachable.step t13 t14 h13 (step_fstOf (by decide) (by decide) rfl)
  have h15 : Reachable t15 :=
    Reachable.step t14 t15 h14 (step_orElse Step.ofAdvanceTurn rfl)
  have h16 : Reachable t16 :=
    Reachable.step t15 t16 h15 (step_orElse (Step.ofInitiateRoll "A") rfl)
  have h17 : Reachable t17 :=
    Reachable.step t16 t17 h16 (step_fstOf (by decide) (by decide) rfl)
  have h18 : Reachable t18 :=
    Reachable.step t17 t18 h17 (step_orElse Step.ofAdvanceTurn rfl)
  have h19 : Reachable t19 :=
    Reachable.step t18 t19 h18 (step_orElse (Step.ofInitiateRoll "B") rfl)
  have h20 : Reachable t20 :=
    Reachable.step t19 t20 h19 (step_fstOf (by decide) (by decide) rfl)
  have h21 : Reachable t21 :=
    Reachable.step t20 t21 h20 (step_orElse Step.ofAdvanceTurn rfl)
  have h22 : Reachable t22 :=
    Reachable.step t21 t22 h21 (step_orElse (Step.ofInitiateRoll "A") rfl)
  have h23 : Reachable t23 :=
    Reachable.step t22 t23 h22 (step_fstOf (by decide) (by decide) rfl)
  have h24 : Reachable t24 :=
    Reachable.step t23 t24 h23 (step_orElse Step.ofAdvanceTurn rfl)
  have h25 : Reachable t25 :=
    Reachable.step t24 t25 h24 (step_orElse (Step.ofInitiateRoll "B") rfl)
  have h26 : Reachable t26 :=
    Reachable.step t25 t26 h25 (step_fstOf (by decide) (by decide) rfl)
  have h27 : Reachable t27 :=
    Reachable.step t26 t27 h26 (step_orElse Step.ofAdvanceTurn rfl)
  exact Reachable.step t27 t28 h27 (step_orElse (Step.ofInitiateRoll "A") rfl)

/-- The pre-capture state `t53` (Alice rolled a 4, her runner on cell 26,
Bob's runner on cell 30) is reachable. -/
theorem reachable_t53 : Reachable t53 := by
  have h29 : Reachable t29 :=
    Reachable.step t28 t29 reachable_t28 (step_fstOf (by decide) (by decide) rfl)
  have h30 : Reachable t30 :=
    Reachable.step t29 t30 h29 (step_orElse (Step.ofMovePiece "A" 4) rfl)
  have h31 : Reachable t31 :=
    Reachable.step t30 t31 h30 (step_orElse (Step.ofInitiateRoll "A") rfl)
  have h32 : Reachable t32 :=
    Reachable.step t31 t32 h31 (step_fstOf (by decide) (by decide) rfl)
  have h33 : Reachable t33 :=
    Reachable.step t32 t33 h32 (step_orElse (Step.ofMovePiece "A" 4) rfl)
  have h34 : Reachable t34 :=
    Reachable.step t33 t34 h33 (step_orElse (Step.ofInitiateRoll "A") rfl)
  have h35 : Reachable t35 :=
    Reachable.step t34 t35 h34 (step_fstOf (by decide) (by decide) rfl)
  have h36 : Reachable t36 :=
    Reachable.step t35 t36 h35 (step_orElse (Step.ofMovePiece "A" 4) rfl)
  have h37 : Reachable t37 :=
    Reachable.step t36 t37 h36 (step_orElse (Step.ofInitiateRoll "A") rfl)
  have h38 : Reachable t38 :=
    Reachable.step t37 t38 h37 (step_fstOf (by decide) (by decide) rfl)
  have h39 : Reachable t39 :=
    Reachable.step t38 t39 h38 (step_orElse (Step.ofMovePiece "A" 4) rfl)
  have h40 : Reachable t40 :=
    Reachable.step t39 t40 h39 (step_orElse (Step.ofInitiateRoll "B") rfl)
  have h41 : Reachable t41 :=
    Reachable.step t40 t41 h40 (step_fstOf (by decide) (by decide) rfl)
  have h42 : Reachable t42 :=
    Reachable.step t41 t42 h41 (step_orElse (Step.ofMovePiece "B" 8) rfl)
  have h43 : Reachable t43 :=
    Reachable.step t42 t43 h42 (step_orElse (Step.ofInitiateRoll "B") rfl)
  have h44 : Reachable t44 :=
    Reachable.step t43 t44 h43 (step_fstOf (by decide) (by decide) rfl)
  have h45 : Reachable t45 :=
    Reachable.step t44 t45 h44 (step_orElse (Step.ofMovePiece "B" 8) rfl)
  have h46 : Reachable t46 :=
    Reachable.step t45 t46 h45 (step_orElse (Step.ofInitiateRoll "A") rfl)
  have h47 : Reachable t47 :=
    Reachable.step t46 t47 h46 (step_fstOf (by decide) (by decide) rfl)
  have h48 : Reachable t48 :=
    Reachable.step t47 t48 h47 (step_orElse (Step.ofMovePiece "A" 4) rfl)
  have h49 : Reachable t49 :=
    Reachable.step t48 t49 h48 (step_orElse (Step.ofInitiateRoll "A") rfl)
  have h50 : Reachable t50 :=
    Reachable.step t49 t50 h49 (step_fstOf (by decide) (by decide) rfl)
  have h51 : Reachable t51 :=
    Reachable.step t50 t51 h50 (step_orElse (Step.ofMovePiece "A" 4) rfl)
  have h52 : Reachable t52 :=
    Reachable.step t51 t52 h51 (step_orElse (Step.ofInitiateRoll "A") rfl)
  exact Reachable.step t52 t53 h52 (step_fstOf (by decide) (by decide) rfl)

/-- The rogue setup-phase roll result `cE2` is reachable. -/
theorem reachable_cE2 : Reachable cE2 := by
  have hE1 : Reachable cE1 :=
    Reachable.step t2 cE1 reachable_t2 (step_orElse (Step.ofInitiateRoll "A") rfl)
  exact Reachable.step cE1 cE2 hE1 (step_fstOf (by decide) (by decide) rfl)

/-! Claim C2: the position computation matches the spec. -/

set_option maxHeartbeats 2000000
set_option maxRecDepth 8000

/-- C2.  For every well-formed piece and dice value d in 1..6,
`getNewPositionInfo` returns exactly the target prescribed by the spec's
reference definition (`specTarget`): a Home piece starts at START[color]
iff d = 6 and otherwise has no legal move; an Active main-path piece
enters the home stretch at index d - distToPreHome - 1 when
d > distToPreHome (Finished at 105 when the index is 5, Active at
100 + index when it is below 5, no move above 5) and otherwise advances
to (position - 1 + d) mod 52 + 1; a home-stretch piece moves to
position + d, Finished exactly at 105 and stuck above it.  In
particular a piece standing on PRE_HOME[color] always enters the home
stretch, to 99 + d, Finished exactly when d = 6. -/
theorem position_matches_spec (pc : Piece) (d : ℤ)
    (hwf : WfPiece pc) (h1 : 1 ≤ d) (h6 : d ≤ 6) :
    getNewPositionInfo pc d = specTarget pc d ∧
      (pc.state = PieceState.Active → pc.position = PRE_HOME_POSITIONS pc.color →
        getNewPositionInfo pc d =
          (99 + d, if d = 6 then PieceState.Finished else PieceState.Active)) := by
  obtain ⟨i, c, s, p⟩ := pc
  obtain ⟨hH, hF, hA⟩ := hwf
  cases s with
  | Home =>
    have hp : p = -1 := hH.mp rfl
    subst hp
    refine ⟨?_, fun hs => by simp at hs⟩
    interval_cases d <;> cases c <;> rfl
  | Finished =>
    have hp : p = 105 := hF.mp rfl
    subst hp
    refine ⟨?_, fun hs => by simp at hs⟩
    interval_cases d <;> cases c <;> rfl
  | Active =>
    refine ⟨?_, ?_⟩
    · rcases hA rfl with ⟨hlo, hhi⟩ | ⟨hlo, hhi⟩ <;>
        (cases c <;> interval_cases p <;> interval_cases d <;> rfl)
    · intro _ hp
      cases c <;> simp only [PRE_HOME_POSITIONS] at hp <;> subst hp <;>
        interval_cases d <;> rfl

/-- Witness for C2: the Green piece on its pre-home cell 51 with a 6
enters the stretch and finishes, exactly as the spec target says. -/
theorem position_matches_spec_witness :
    getNewPositionInfo ⟨4, PlayerColor.Green, PieceState.Active, 51⟩ 6 =
        specTarget ⟨4, PlayerColor.Green, PieceState.Active, 51⟩ 6 ∧
      getNewPositionInfo ⟨4, PlayerColor.Green, PieceState.Active, 51⟩ 6 =
        (105, PieceState.Finished) := by
  have h := position_matches_spec ⟨4, PlayerColor.Green, PieceState.Active, 51⟩ 6
    (by decide) (by norm_num) (by norm_num)
  exact ⟨h.1, by simpa using h.2 rfl rfl⟩

/-- C1: the spec says a third consecutive six forfeits the turn, but the
code resets `consecutiveSixes` on every bonus move: `movePiece` nulls
`diceValue` before testing `diceValue !== 6`, so the test always
succeeds.  In the concrete trace, Alice completes three rolls in a row
(t29, t32, t35), each yielding a six while she stays on seat 0, yet
after the third six her streak counter reads 1, the dice stays live with
movable pieces offered, and the follow-up move is accepted instead of
the turn being forfeited. -/
theorem three_sixes_no_forfeit :
    t29.diceValue = some 6 ∧ t32.diceValue = some 6 ∧ t35.diceValue = some 6 ∧
      t29.currentPlayerIndex = 0 ∧ t32.currentPlayerIndex = 0 ∧
      t35.currentPlayerIndex = 0 ∧
      (t35.players.get? 0).map Player.consecutiveSixes = some 1 ∧
      t35.gameStatus = GameStatus.Playing ∧ t35.movablePieces = [4, 5, 6, 7] ∧
      (movePiece t35 "A" 4).isSome = true :=
  ⟨rfl, rfl, rfl, rfl, rfl, rfl, rfl, rfl, rfl, rfl⟩

/-- C4 counterexample: the spec says the dice value is only ever set
while the game is Playing, but `initiateRoll` and `completeRoll` never
check `gameStatus`, so a roll in a Setup lobby reaches a state with a
set dice value outside Playing. -/
theorem roll_outside_playing_counterexample :
    Reachable cE2 ∧ cE2.diceValue ≠ none ∧ cE2.gameStatus ≠ GameStatus.Playing :=
  ⟨reachable_cE2, by decide, by decide⟩

/-- C4 amended: what does hold in every reachable state is that a set
dice value implies the roll animation has resolved (`isRolling` is
false), because `initiateRoll` nulls the dice and `completeRoll` clears
the flag when it sets the dice. -/
theorem dice_implies_not_rolling (g : GameState) (h : Reachable g)
    (hd : g.diceValue ≠ none) : g.isRolling = false :=
  (reachable_inv h).2.2.1 hd

/-- Witness for the amended C4: the rogue setup-phase roll state has a
set dice value and a cleared rolling flag. -/
theorem dice_implies_not_rolling_witness : cE2.isRolling = false :=
  dice_implies_not_rolling cE2 reachable_cE2 (by decide)

/-- C6: in every reachable state a piece is at position -1 exactly when
its state is Home and at 105 exactly when Finished, as maintained by
`createPlayer`, `getNewPositionInfo` and the capture loop. -/
theorem piece_state_position (g : GameState) (h : Reachable g)
    (p : Player) (hp : p ∈ g.players) (pc : Piece) (hpc : pc ∈ p.pieces) :
    (pc.state = PieceState.Home ↔ pc.position = -1) ∧
      (pc.state = PieceState.Finished ↔ pc.position = 105) := by
  have hw := (reachable_inv h).1 p hp pc hpc
  exact ⟨hw.1, hw.2.1⟩

/-- Witness for C6 at the first piece of the first player of `t2`. -/
theorem piece_state_position_witness :
    (pcW.state = PieceState.Home ↔ pcW.position = -1) ∧
      (pcW.state = PieceState.Finished ↔ pcW.position = 105) :=
  piece_state_position t2 reachable_t2 pW (by decide) pcW (by decide)

/-- C5: when the current player completes a roll with all four pieces at
home and at least four rolls without a six, `completeRoll` forces the
die to 6 (`rolledDice`); the `rollsWithoutSix` counter resets on a six
and increments on a sixless roll while all pieces are home.  The
`Reachable` hypothesis rules out the three-sixes penalty branch: while a
roll is in flight the streak counter is 0, so it is at most 1 after this
roll. -/
theorem pity_six (g : GameState) (pid : String) (rand : ℕ) (p : Player)
    (hre : Reachable g)
    (hcp : g.players.get? g.currentPlayerIndex = some p)
    (hpid : p.playerId = pid)
    (hroll : g.isRolling = true)
    (h1 : 1 ≤ rand) (h6 : rand ≤ 6) :
    ∃ gN ret q, completeRoll g pid rand = some (gN, ret) ∧
      gN.players.get? g.currentPlayerIndex = some q ∧
      gN.diceValue = some (rolledDice p rand) ∧
      ((p.pieces.all fun pc => pc.state = PieceState.Home) ∧ 4 ≤ p.rollsWithoutSix →
        gN.diceValue = some 6) ∧
      (rolledDice p rand = 6 → q.rollsWithoutSix = 0) ∧
      (rolledDice p rand ≠ 6 →
        (p.pieces.all fun pc => pc.state = PieceState.Home) →
        q.rollsWithoutSix = p.rollsWithoutSix + 1) := by
  have hcs : p.consecutiveSixes = 0 := (reachable_inv hre).2.2.2.2.1 hroll p hcp
  have hlt : g.currentPlayerIndex < g.players.length := get?_some_lt hcp
  have hrd : rolledDice { p with inactiveTurns := 0 } rand = rolledDice p rand := rfl
  unfold completeRoll
  simp only [hcp]
  have hguard : ¬(p.playerId ≠ pid ∨ g.isRolling = false) := by
    rintro (hne | hfa)
    · exact hne hpid
    · rw [hroll] at hfa
      exact Bool.noConfusion hfa
  rw [if_neg hguard]
  have hpen : ¬(rollCounters { p with inactiveTurns := 0 }
      (rolledDice { p with inactiveTurns := 0 } rand)).consecutiveSixes = 3 := by
    rw [rollCounters_cs]
    have hcs0 : ({ p with inactiveTurns := 0 } : Player).consecutiveSixes = 0 := hcs
    rw [hcs0]
    split <;> omega
  rw [if_neg hpen]
  rw [ite_pair]
  refine ⟨_, _, _, rfl, get?_set_self _ hlt, ?_, ?_, ?_, ?_⟩
  · exact rfl
  · rintro ⟨hall, h4⟩
    have hd : rolledDice p rand = 6 := by
      unfold rolledDice
      rw [if_pos ⟨hall, h4⟩]
    exact congrArg some hd
  · intro hd6
    rw [rollCounters_rws, hrd, if_pos hd6]
  · intro hne hall
    rw [rollCounters_rws, hrd, if_neg hne]
    have hallL : ({ p with inactiveTurns := 0 } : Player).pieces.all
        (fun pc => pc.state = PieceState.Home) = true := hall
    rw [if_pos hallL]

/-- Witness for C5 at `t28`: Alice mid-roll with every piece home and
four sixless rolls; the injected sample 1 is overridden to a 6. -/
theorem pity_six_witness :
    ∃ gN ret, completeRoll t28 "A" 1 = some (gN, ret) ∧ gN.diceValue = some 6 := by
  obtain ⟨gN, ret, q, hcr, hq, hdv, hforce, hz, hinc⟩ :=
    pity_six t28 "A" 1 _ reachable_t28 rfl rfl rfl (by decide) (by decide)
  exact ⟨gN, ret, hcr, hforce (by decide)⟩

theorem length_updatePlayerById (l : List Player) (pid : String) (f : Player → Player) :
    (updatePlayerById l pid f).length = l.length := by
  induction l with
  | nil => rfl
  | cons p rest ih =>
    unfold updatePlayerById
    split
    · rfl
    · simp [ih]

theorem length_set_ne_zero {α : Type} (l : List α) (i : ℕ) (a : α) (hl : l.length ≠ 0) :
    (l.set i a).length ≠ 0 := by
  simpa using hl

theorem length_applyCaptures_ne_zero (l : List Player) (c : PlayerColor) (x : ℤ)
    (hl : l.length ≠ 0) : (applyCaptures l c x).length ≠ 0 := by
  simpa [applyCaptures] using hl

theorem initiateRoll_isSome (g : GameState) (pid : String)
    (h : g.currentPlayerIndex < g.players.length) :
    (initiateRoll g pid).isSome = true := by
  obtain ⟨cp0, hcp⟩ := get?_isSome_of_lt h
  unfold initiateRoll
  simp only [hcp]
  split <;> rfl

theorem completeRoll_isSome (g : GameState) (pid : String) (rand : ℕ)
    (h : g.currentPlayerIndex < g.players.length) :
    (completeRoll g pid rand).isSome = true := by
  obtain ⟨cp0, hcp⟩ := get?_isSome_of_lt h
  unfold completeRoll
  simp only [hcp]
  split
  · rfl
  · simp only [logTurn]
    split
    · split
      · rename_i heq
        exact absurd heq
          (Option.ne_none_iff_isSome.mpr
            (advanceTurn_isSome _ (length_set_ne_zero g.players _ _ (by omega))))
      · rfl
    · split <;> rfl

theorem movePiece_isSome (g : GameState) (pid : String) (pieceId : ℕ)
    (h : g.currentPlayerIndex < g.players.length) :
    (movePiece g pid pieceId).isSome = true := by
  cases hm : movePiece g pid pieceId with
  | some gN => rfl
  | none =>
    exfalso
    unfold movePiece at hm
    split at hm
    · rename_i heq
      obtain ⟨a, ha⟩ := get?_isSome_of_lt h
      rw [heq] at ha
      cases ha
    · rename_i cp0 hcp
      split at hm
      · cases hm
      · simp only [logTurn] at hm
        split at hm
        · cases hm
        · rename_i pieceToMove hfind
          rw [if_pos (by decide : (none : Option ℕ) ≠ some 6)] at hm
          split at hm
          · cases hm
          · split at hm
            · split at hm
              · split at hm
                · cases hm
                · exact absurd hm (Option.ne_none_iff_isSome.mpr (advanceTurn_isSome _
                    (length_applyCaptures_ne_zero _ _ _
                      (length_set_ne_zero g.players _ _ (by omega)))))
              · split at hm
                · cases hm
                · exact absurd hm (Option.ne_none_iff_isSome.mpr (advanceTurn_isSome _
                    (length_set_ne_zero g.players _ _ (by omega))))
            · split at hm
              · split at hm
                · cases hm
                · exact absurd hm (Option.ne_none_iff_isSome.mpr (advanceTurn_isSome _
                    (length_applyCaptures_ne_zero _ _ _
                      (length_set_ne_zero g.players _ _ (by omega)))))
              · split at hm
                · cases hm
                · exact absurd hm (Option.ne_none_iff_isSome.mpr (advanceTurn_isSome _
                    (length_set_ne_zero g.players _ _ (by omega))))

theorem leaveGame_isSome (g : GameState) (pid : String)
    (h : g.currentPlayerIndex < g.players.length) :
    (leaveGame g pid).isSome = true := by
  cases hm : leaveGame g pid with
  | some gN => rfl
  | none =>
    exfalso
    unfold leaveGame at hm
    split at hm
    · cases hm
    · rename_i player hfind
      split at hm
      · cases hm
      · simp only [] at hm
        split at hm
        · cases hm
        · split at hm
          · rename_i heq
            rw [List.get?_eq_none] at heq
            have hle : (updatePlayerById g.players pid
                fun p => { p with isRemoved := true }).length ≤ g.currentPlayerIndex := heq
            rw [length_updatePlayerById] at hle
            omega
          · rename_i cp hget
            have hlen : (updatePlayerById g.players pid
                fun p => { p with isRemoved := true }).length ≠ 0 := by
              rw [length_updatePlayerById]
              omega
            split at hm
            · exact absurd hm
                (Option.ne_none_iff_isSome.mpr (advanceTurn_isSome _ hlen))
            · cases hm

theorem handleMissedTurn_isSome (g : GameState) : (handleMissedTurn g).isSome = true := by
  cases hm : handleMissedTurn g with
  | some gN => rfl
  | none =>
    exfalso
    unfold handleMissedTurn at hm
    split at hm
    · cases hm
    · rename_i cp0 hcp
      split at hm
      · cases hm
      · simp only [] at hm
        have hlt2 := get?_some_lt hcp
        split at hm
        · have hcur : g.currentPlayerIndex < (g.players.set g.currentPlayerIndex
              { cp0 with inactiveTurns := cp0.inactiveTurns + 1 }).length := by
            rw [List.length_set]
            exact hlt2
          exact absurd hm
            (Option.ne_none_iff_isSome.mpr (leaveGame_isSome _ _ hcur))
        · have hlen : (g.players.set g.currentPlayerIndex
              { cp0 with inactiveTurns := cp0.inactiveTurns + 1 }).length ≠ 0 := by
            rw [List.length_set]
            omega
          exact absurd hm
            (Option.ne_none_iff_isSome.mpr (advanceTurn_isSome _ hlen))

theorem startGame_isSome (g : GameState) (req : Option String) :
    (startGame g req).isSome = true := by
  unfold startGame
  split
  · rfl
  · split
    · rfl
    · rename_i hc
      push_neg at hc
      obtain ⟨p0, hp0⟩ := get?_isSome_of_lt (show 0 < g.players.length by omega)
      simp only [hp0]
      rfl

theorem addPlayer_isSome (g : GameState) (pid nm : String) :
    (addPlayer g pid nm).isSome = true := by
  unfold addPlayer
  split
  · rfl
  · split
    · rfl
    · split
      · rfl
      · simp only [TWO_PLAYER_COLORS, ALL_COLORS]
        split <;> rfl

theorem sendChatMessage_isSome (g : GameState) (pid text : String) (msgId time : ℕ) :
    (sendChatMessage g pid text msgId time).isSome = true := by
  unfold sendChatMessage
  split <;> rfl

/-- Core of the attrition rule: removing a not-yet-removed player whose
departure leaves exactly one active, unfinished player finishes the game
with that player as winner. -/
theorem leaveGame_wins (g : GameState) (pid : String) (pl w : Player)
    (hfind : g.players.find? (fun p => p.playerId = pid) = some pl)
    (hnr : pl.isRemoved = false)
    (hone : (updatePlayerById g.players pid fun p => { p with isRemoved := true }).filter
        (fun p => ¬p.isRemoved ∧ ¬p.hasFinished) = [w]) :
    ∃ gN, leaveGame g pid = some gN ∧ gN.gameStatus = GameStatus.Finished ∧
      gN.winner = some w := by
  unfold leaveGame
  simp only [hfind]
  rw [if_neg (by simp [hnr])]
  simp only [logTurn]
  split
  · rename_i w2 heq
    have heq2 : (updatePlayerById g.players pid fun p => { p with isRemoved := true }).filter
        (fun p => ¬p.isRemoved ∧ ¬p.hasFinished) = [w2] := heq
    rw [hone] at heq2
    injection heq2 with hw hnil
    refine ⟨_, rfl, rfl, ?_⟩
    exact (congrArg some hw).symm
  · rename_i hne
    exact absurd hone (by intro hcon; exact hne w hcon)

/-- C7: a winner by attrition.  If a present, not-yet-removed player
leaves and exactly one active, unfinished player remains after the
removal, `leaveGame` finishes the game with that survivor as winner; and
when the current player of a Playing game reaches `MAX_INACTIVE_TURNS`
missed turns, `handleMissedTurn` removes them the same way, finishing
the game with the survivor of the post-increment roster as winner. -/
theorem attrition_winner (g : GameState) (pid : String) (pl w : Player)
    (hfind : g.players.find? (fun p => p.playerId = pid) = some pl)
    (hnr : pl.isRemoved = false)
    (hone : (updatePlayerById g.players pid fun p => { p with isRemoved := true }).filter
        (fun p => ¬p.isRemoved ∧ ¬p.hasFinished) = [w]) :
    (∃ gN, leaveGame g pid = some gN ∧ gN.gameStatus = GameStatus.Finished ∧
      gN.winner = some w) ∧
    (g.gameStatus = GameStatus.Playing →
      ∀ cp, g.players.get? g.currentPlayerIndex = some cp → cp.playerId = pid →
      MAX_INACTIVE_TURNS ≤ cp.inactiveTurns + 1 →
      ∀ pl2 w2,
        (g.players.set g.currentPlayerIndex
            { cp with inactiveTurns := cp.inactiveTurns + 1 }).find?
          (fun p => p.playerId = pid) = some pl2 →
        pl2.isRemoved = false →
        (updatePlayerById
            (g.players.set g.currentPlayerIndex
              { cp with inactiveTurns := cp.inactiveTurns + 1 }) pid
            fun p => { p with isRemoved := true }).filter
          (fun p => ¬p.isRemoved ∧ ¬p.hasFinished) = [w2] →
        ∃ gN2, handleMissedTurn g = some gN2 ∧ gN2.gameStatus = GameStatus.Finished ∧
          gN2.winner = some w2) := by
  constructor
  · exact leaveGame_wins g pid pl w hfind hnr hone
  · intro hPlay cp hcp hcpid hmax pl2 w2 hfind2 hnr2 hone2
    unfold handleMissedTurn
    simp only [hcp]
    rw [if_neg (fun hx => hx hPlay)]
    simp only [logTurn]
    rw [if_pos hmax]
    have hpr : ({ cp with inactiveTurns := cp.inactiveTurns + 1 } : Player).playerId = pid :=
      hcpid
    rw [hpr]
    rw [hcpid] at hfind2 hone2
    exact leaveGame_wins _ pid pl2 w2 hfind2 hnr2 hone2

/-- Witness for C7: Alice wins by attrition both ways — at `t54` Bob
leaves directly, and at `t71` Bob (four missed turns already) misses a
fifth turn. -/
theorem attrition_winner_witness :
    (∃ gN, leaveGame t54 "B" = some gN ∧ gN.gameStatus = GameStatus.Finished ∧
      ∃ w, gN.winner = some w ∧ w.playerId = "A") ∧
    (∃ gN2, handleMissedTurn t71 = some gN2 ∧ gN2.gameStatus = GameStatus.Finished ∧
      ∃ w2, gN2.winner = some w2 ∧ w2.playerId = "A") := by
  constructor
  · obtain ⟨gN, h1, h2, h3⟩ := (attrition_winner t54 "B" _ _ rfl rfl rfl).1
    exact ⟨gN, h1, h2, _, h3, rfl⟩
  · obtain ⟨gN2, h1, h2, h3⟩ :=
      (attrition_winner t71 "B" _ _ rfl rfl rfl).2 rfl _ rfl rfl (by decide) _ _ rfl rfl rfl
    exact ⟨gN2, h1, h2, _, h3, rfl⟩

/-- C9 counterexample: the rolling and moving operations read
`players[currentPlayerIndex].playerId` without a guard, so on a fresh
game with no players `initiateRoll` throws (modelled as `none`). -/
theorem roll_on_empty_crash : initiateRoll t0 "A" = none ∧ t0.players = [] :=
  ⟨rfl, rfl⟩

/-- C9 amended: the lobby operations (`addPlayer`, `startGame`,
`handleMissedTurn`, `sendChatMessage`) complete on every state,
degenerate ones included; the rolling and moving operations
(`initiateRoll`, `completeRoll`, `movePiece`, `leaveGame`,
`advanceTurn`) complete on every state whose `currentPlayerIndex` is in
range of the players array.  Only game-state mutations happen (modelled
by each operation returning a value rather than diverging). -/
theorem rule_ops_total (g : GameState) (pid text : String) (req : Option String)
    (rand pieceId msgId time : ℕ) :
    (addPlayer g pid text).isSome = true ∧ (startGame g req).isSome = true ∧
      (handleMissedTurn g).isSome = true ∧
      (sendChatMessage g pid text msgId time).isSome = true ∧
      (g.currentPlayerIndex < g.players.length →
        (initiateRoll g pid).isSome = true ∧ (completeRoll g pid rand).isSome = true ∧
          (movePiece g pid pieceId).isSome = true ∧ (leaveGame g pid).isSome = true ∧
          (advanceTurn g).isSome = true) :=
  ⟨addPlayer_isSome g pid text, startGame_isSome g req, handleMissedTurn_isSome g,
    sendChatMessage_isSome g pid text msgId time,
    fun h =>
      ⟨initiateRoll_isSome g pid h, completeRoll_isSome g pid rand h,
        movePiece_isSome g pid pieceId h, leaveGame_isSome g pid h,
        advanceTurn_isSome g (by omega)⟩⟩

/-- Witness for the amended C9: the lobby operations on the empty,
seatless fresh game `t0`, and all nine operations on the reachable
lobby `t2`. -/
theorem rule_ops_total_witness :
    (addPlayer t0 "A" "Alice").isSome = true ∧ (startGame t0 (some "A")).isSome = true ∧
      (handleMissedTurn t0).isSome = true ∧
      (sendChatMessage t0 "A" "hello" 1 2).isSome = true ∧
      (initiateRoll t2 "A").isSome = true ∧ (completeRoll t2 "A" 3).isSome = true ∧
      (movePiece t2 "A" 4).isSome = true ∧ (leaveGame t2 "A").isSome = true ∧
      (advanceTurn t2).isSome = true := by
  obtain ⟨h1, h2, h3, h4, _⟩ := rule_ops_total t0 "A" "Alice" (some "A") 3 4 1 2
  obtain ⟨_, _, _, _, h5⟩ := rule_ops_total t2 "A" "Cleo" (some "A") 3 4 1 2
  obtain ⟨h6, h7, h8, h9, h10⟩ := h5 (by decide)
  exact ⟨h1, h2, h3, h4, h6, h7, h8, h9, h10⟩

theorem find?_cons_pos (x : Player) (xs : List Player) (pid : String)
    (hx : x.playerId = pid) :
    List.find? (fun p => decide (p.playerId = pid)) (x :: xs) = some x := by
  simp [List.find?, hx]

theorem find?_cons_neg (x : Player) (xs : List Player) (pid : String)
    (hx : ¬x.playerId = pid) :
    List.find? (fun p => decide (p.playerId = pid)) (x :: xs) =
      List.find? (fun p => decide (p.playerId = pid)) xs := by
  simp [List.find?, hx]

/-- Marking the first player with a given id keeps it the first match of
`find?` on that id, now with the removal flag up. -/
theorem find?_mark (pid : String) :
    ∀ (l : List Player) (pl : Player),
      l.find? (fun p => p.playerId = pid) = some pl →
      (updatePlayerById l pid fun p => { p with isRemoved := true }).find?
        (fun p => p.playerId = pid) = some { pl with isRemoved := true } := by
  intro l
  induction l with
  | nil =>
    intro pl h
    simp at h
  | cons x xs ih =>
    intro pl h
    by_cases hx : x.playerId = pid
    · rw [find?_cons_pos _ _ pid hx] at h
      injection h with he
      subst he
      simp only [updatePlayerById]
      rw [if_pos hx]
      rw [find?_cons_pos { x with isRemoved := true } xs pid hx]
    · rw [find?_cons_neg _ _ pid hx] at h
      simp only [updatePlayerById]
      rw [if_neg hx]
      rw [find?_cons_neg _ _ pid hx]
      exact ih pl h

/-- Resetting one seat's six streak moves `find?` by id to a player with
the same removal flag. -/
theorem find?_set_cs (pid : String) :
    ∀ (l : List Player) (j : ℕ) (np r : Player),
      l.get? j = some np →
      l.find? (fun p => p.playerId = pid) = some r →
      ∃ r2, (l.set j { np with consecutiveSixes := 0 }).find?
          (fun p => p.playerId = pid) = some r2 ∧
        r2.isRemoved = r.isRemoved := by
  intro l
  induction l with
  | nil =>
    intro j np r hg hf
    simp at hg
  | cons x xs ih =>
    intro j np r hg hf
    cases j with
    | zero =>
      rw [List.get?_cons_zero] at hg
      injection hg with he
      subst he
      simp only [List.set]
      by_cases hx : x.playerId = pid
      · rw [find?_cons_pos _ _ pid hx] at hf
        injection hf with he2
        refine ⟨{ x with consecutiveSixes := 0 }, ?_, by rw [← he2]⟩
        rw [find?_cons_pos { x with consecutiveSixes := 0 } xs pid hx]
      · rw [find?_cons_neg _ _ pid hx] at hf
        refine ⟨r, ?_, rfl⟩
        rw [find?_cons_neg { x with consecutiveSixes := 0 } xs pid hx]
        exact hf
    | succ n =>
      rw [List.get?_cons_succ] at hg
      simp only [List.set]
      by_cases hx : x.playerId = pid
      · rw [find?_cons_pos _ _ pid hx] at hf
        injection hf with he2
        refine ⟨x, ?_, by rw [he2]⟩
        rw [find?_cons_pos _ _ pid hx]
      · rw [find?_cons_neg _ _ pid hx] at hf
        obtain ⟨r2, hr2, hrem⟩ := ih n np r hg hf
        refine ⟨r2, ?_, hrem⟩
        rw [find?_cons_neg _ _ pid hx]
        exact hr2

/-- C8: `leaveGame` is idempotent.  A second `leaveGame` for the same id
is a no-op: either the id is absent (no-op both times), or the first
call marked the player `isRemoved`, and the second call finds the marked
player and returns the state unchanged. -/
theorem leaveGame_idem (g : GameState) (pid : String) :
    (leaveGame g pid).bind (fun g2 => leaveGame g2 pid) = leaveGame g pid := by
  cases hfind : g.players.find? fun p => p.playerId = pid with
  | none =>
    have h1 : leaveGame g pid = some g := by
      unfold leaveGame
      simp only [hfind]
    rw [h1]
    exact h1
  | some pl =>
    by_cases hrm : pl.isRemoved
    · have h1 : leaveGame g pid = some g := by
        unfold leaveGame
        simp only [hfind]
        rw [if_pos hrm]
      rw [h1]
      exact h1
    · cases hlg : leaveGame g pid with
      | none => rfl
      | some g2 =>
        have hfm := find?_mark pid g.players pl hfind
        have hkey : ∃ r2, (g2.players.find? fun p => p.playerId = pid) = some r2 ∧
            r2.isRemoved = true := by
          unfold leaveGame at hlg
          simp only [hfind] at hlg
          rw [if_neg hrm] at hlg
          simp only [logTurn] at hlg
          split at hlg
          · injection hlg with he
            subst he
            exact ⟨_, hfm, rfl⟩
          · split at hlg
            · cases hlg
            · rename_i cp hget
              split at hlg
              · rcases advanceTurn_players hlg with he | ⟨j, np, hnp, he⟩
                · rw [he]
                  exact ⟨_, hfm, rfl⟩
                · have hnp2 : (updatePlayerById g.players pid
                      fun p => { p with isRemoved := true }).get? j = some np := hnp
                  obtain ⟨r2, hr2, hrem⟩ := find?_set_cs pid
                    (updatePlayerById g.players pid fun p => { p with isRemoved := true })
                    j np _ hnp2 hfm
                  refine ⟨r2, ?_, by rw [hrem]⟩
                  rw [he]
                  exact hr2
              · injection hlg with he
                subst he
                exact ⟨_, hfm, rfl⟩
        obtain ⟨r2, hr2, hrem⟩ := hkey
        have h2 : leaveGame g2 pid = some g2 := by
          unfold leaveGame
          simp only [hr2]
          rw [if_pos hrem]
        exact h2

/-- C10: in the licensed variant of `src/game.js`, a false
`licenseStatus` short-circuits `startGame` into the license-error
message with the state otherwise untouched (so the game stays in
Setup), and short-circuits `completeRoll` into the pause message with
return flag `false` and no dice update. -/
theorem license_gate (g : GameStateL) (req : Option String) (pid : String) (rand : ℕ) :
    startGameL g req false =
        some { g with message := "Server License Error: Game cannot start." } ∧
      completeRollL g pid rand false =
        some ({ g with message := "License Invalid. Gameplay paused." }, some false) :=
  ⟨rfl, rfl⟩

/-- Below the finish cells the computed target is Active, except for the
unmovable Home piece with a sub-six roll, which stays put at -1. -/
theorem target_below (c : PlayerColor) (s : PieceState) (p d : ℤ)
    (hwf : WfSP s p) (h1 : 1 ≤ d) (h6 : d ≤ 6) :
    (getNewPositionInfo ⟨0, c, s, p⟩ d).1 < 100 →
      (getNewPositionInfo ⟨0, c, s, p⟩ d).2 = PieceState.Active ∨
        (s = PieceState.Home ∧ p = -1 ∧
          getNewPositionInfo ⟨0, c, s, p⟩ d = (p, s)) := by
  obtain ⟨hH, hF, hA⟩ := hwf
  cases s with
  | Home =>
    have hp : p = -1 := hH.mp rfl
    subst hp
    interval_cases d <;> cases c <;> decide
  | Finished =>
    have hp : p = 105 := hF.mp rfl
    subst hp
    interval_cases d <;> cases c <;> decide
  | Active =>
    rcases hA rfl with ⟨hlo, hhi⟩ | ⟨hlo, hhi⟩ <;>
      (cases c <;> interval_cases p <;> interval_cases d <;> decide)

/-- `target_below` for an arbitrary piece record. -/
theorem move_below (pc : Piece) (d : ℤ) (hwf : WfPiece pc) (h1 : 1 ≤ d) (h6 : d ≤ 6)
    (hlt : (getNewPositionInfo pc d).1 < 100) :
    (getNewPositionInfo pc d).2 = PieceState.Active ∨
      (pc.state = PieceState.Home ∧ pc.position = -1 ∧
        getNewPositionInfo pc d = (pc.position, pc.state)) := by
  obtain ⟨i, c, s, p⟩ := pc
  have hid : getNewPositionInfo ⟨i, c, s, p⟩ d = getNewPositionInfo ⟨0, c, s, p⟩ d := rfl
  rw [hid] at hlt ⊢
  exact target_below c s p d hwf h1 h6 hlt

/-- Sending home the pieces standing at -1 changes nothing on a
well-formed piece list: such pieces are Home at -1 already. -/
theorem map_sendHomeAt_neg_one :
    ∀ l : List Piece, (∀ x ∈ l, WfPiece x) → l.map (sendHomeAt (-1)) = l := by
  intro l
  induction l with
  | nil => intro _; rfl
  | cons x xs ih =>
    intro hl
    simp only [List.map_cons]
    have hhead : sendHomeAt (-1) x = x := by
      unfold sendHomeAt
      by_cases hx : x.position = (-1 : ℤ)
      · rw [if_pos hx]
        have hw : x.state = PieceState.Home := (hl x (List.mem_cons_self x xs)).1.mpr hx
        obtain ⟨i, c, s, p⟩ := x
        have hp : p = -1 := hx
        have hs : s = PieceState.Home := hw
        subst hp
        subst hs
        rfl
      · rw [if_neg hx]
    rw [hhead, ih (fun y hy => hl y (List.mem_cons_of_mem x hy))]

theorem get?_applyCaptures (l : List Player) (c : PlayerColor) (x : ℤ) (j : ℕ) :
    (applyCaptures l c x).get? j = (l.get? j).map fun q =>
      if q.color = c then q else { q with pieces := q.pieces.map (sendHomeAt x) } := by
  unfold applyCaptures
  exact List.get?_map _ _ _

/-- `advanceTurn` does not touch any player's pieces. -/
theorem advanceTurn_get?_pieces {g gN : GameState} (hs : advanceTurn g = some gN) (j : ℕ) :
    (gN.players.get? j).map Player.pieces = (g.players.get? j).map Player.pieces := by
  rcases advanceTurn_players hs with he | ⟨i, np, hnp, he⟩
  · rw [he]
  · rw [he]
    by_cases hij : i = j
    · subst hij
      rw [get?_set_self _ (get?_some_lt hnp), hnp]
      rfl
    · rw [get?_set_of_ne _ hij]

/-- Pieces of an off-seat, other-colored player after the capture loop
and a final write to the seat. -/
theorem final_get?_pieces (players : List Player) (cur : ℕ) (cpM X : Player)
    (c : PlayerColor) (x : ℤ) (j : ℕ) (q : Player)
    (hj : players.get? j = some q) (hq : q.color ≠ c)
    (hcur : ∀ p, players.get? cur = some p → p.color = c) :
    ((((applyCaptures (players.set cur cpM) c x).set cur X).get? j).map Player.pieces) =
      some (q.pieces.map (sendHomeAt x)) := by
  have hjc : j ≠ cur := fun he => hq (hcur q (he ▸ hj))
  rw [get?_set_of_ne _ (fun he => hjc he.symm)]
  rw [get?_applyCaptures]
  rw [get?_set_of_ne _ (fun he => hjc he.symm), hj]
  rw [Option.map_some', Option.map_some', if_neg hq]

/-- Pieces of an off-seat player when the capture loop is skipped. -/
theorem final_get?_pieces_nocap (players : List Player) (cur : ℕ) (cpM X : Player)
    (c : PlayerColor) (j : ℕ) (q : Player)
    (hj : players.get? j = some q) (hq : q.color ≠ c)
    (hcur : ∀ p, players.get? cur = some p → p.color = c) :
    ((((players.set cur cpM).set cur X).get? j).map Player.pieces) = some q.pieces := by
  have hjc : j ≠ cur := fun he => hq (hcur q (he ▸ hj))
  rw [get?_set_of_ne _ (fun he => hjc he.symm), get?_set_of_ne _ (fun he => hjc he.symm), hj]
  rfl

theorem mid_get?_pieces (players : List Player) (cur : ℕ) (cpM : Player)
    (c : PlayerColor) (x : ℤ) (j : ℕ) (q : Player)
    (hj : players.get? j = some q) (hq : q.color ≠ c)
    (hcur : ∀ p, players.get? cur = some p → p.color = c) :
    (((applyCaptures (players.set cur cpM) c x).get? j).map Player.pieces) =
      some (q.pieces.map (sendHomeAt x)) := by
  have hjc : j ≠ cur := fun he => hq (hcur q (he ▸ hj))
  rw [get?_applyCaptures]
  rw [get?_set_of_ne _ (fun he => hjc he.symm), hj]
  rw [Option.map_some', Option.map_some', if_neg hq]

theorem mid_get?_pieces_nocap (players : List Player) (cur : ℕ) (cpM : Player)
    (c : PlayerColor) (j : ℕ) (q : Player)
    (hj : players.get? j = some q) (hq : q.color ≠ c)
    (hcur : ∀ p, players.get? cur = some p → p.color = c) :
    (((players.set cur cpM).get? j).map Player.pieces) = some q.pieces := by
  have hjc : j ≠ cur := fun he => hq (hcur q (he ▸ hj))
  rw [get?_set_of_ne _ (fun he => hjc he.symm), hj]
  rfl

/-- C3: landing on a shared cell captures.  When the current player
moves a movable piece, if the computed landing cell is on the main path
(below `FINISH_POSITION_START`) and not a safe spot, every other-colored
player comes out with exactly their pieces on that cell sent Home
(position -1) and the rest untouched; if the landing cell is a safe spot
or in the finish area, every other-colored player's pieces are
untouched. -/
theorem capture_on_landing (g : GameState) (pid : String) (pieceId : ℕ)
    (cp0 : Player) (pc : Piece)
    (hre : Reachable g)
    (hcp : g.players.get? g.currentPlayerIndex = some cp0)
    (hpid : cp0.playerId = pid)
    (hmv : pieceId ∈ g.movablePieces)
    (hfind : cp0.pieces.find? (fun x => x.id = pieceId) = some pc) :
    ∃ gN, movePiece g pid pieceId = some gN ∧
      (((getNewPositionInfo pc ((g.diceValue.getD 0 : ℕ) : ℤ)).1 < FINISH_POSITION_START ∧
          (getNewPositionInfo pc ((g.diceValue.getD 0 : ℕ) : ℤ)).1 ∉ SAFE_SPOTS) →
        ∀ j q, g.players.get? j = some q → q.color ≠ cp0.color →
          (gN.players.get? j).map Player.pieces =
            some (q.pieces.map
              (sendHomeAt (getNewPositionInfo pc ((g.diceValue.getD 0 : ℕ) : ℤ)).1))) ∧
      (((getNewPositionInfo pc ((g.diceValue.getD 0 : ℕ) : ℤ)).1 ∈ SAFE_SPOTS ∨
          FINISH_POSITION_START ≤ (getNewPositionInfo pc ((g.diceValue.getD 0 : ℕ) : ℤ)).1) →
        ∀ j q, g.players.get? j = some q → q.color ≠ cp0.color →
          (gN.players.get? j).map Player.pieces = some q.pieces) := by
  have hinv := reachable_inv hre
  have hlt : g.currentPlayerIndex < g.players.length := get?_some_lt hcp
  have hdice : g.diceValue ≠ none := by
    intro hn
    rw [hinv.2.2.2.1 hn] at hmv
    exact List.not_mem_nil pieceId hmv
  have hd1 : (1 : ℤ) ≤ ((g.diceValue.getD 0 : ℕ) : ℤ) ∧
      ((g.diceValue.getD 0 : ℕ) : ℤ) ≤ 6 := by
    cases hdv : g.diceValue with
    | none => exact absurd hdv hdice
    | some v =>
      have hb := hinv.2.1 v hdv
      constructor
      · simp only [hdv, Option.getD]
        exact_mod_cast hb.1
      · simp only [hdv, Option.getD]
        exact_mod_cast hb.2
  have hptm : WfPiece pc :=
    hinv.1 cp0 (List.get?_mem hcp) pc (List.mem_of_find?_eq_some hfind)
  have hcurcol : ∀ p, g.players.get? g.currentPlayerIndex = some p → p.color = cp0.color := by
    intro p hp
    rw [hcp] at hp
    injection hp with he
    rw [← he]
  have hwfN := wf_move pc ((g.diceValue.getD 0 : ℕ) : ℤ) hptm (by omega) hd1.2
  obtain ⟨gN, hgN⟩ : ∃ gN, movePiece g pid pieceId = some gN := by
    have hsm := movePiece_isSome g pid pieceId hlt
    cases hx : movePiece g pid pieceId with
    | none =>
      rw [hx] at hsm
      cases hsm
    | some gX => exact ⟨gX, rfl⟩
  refine ⟨gN, hgN, ?_⟩
  unfold movePiece at hgN
  split at hgN
  · rename_i heq
    rw [heq] at hcp
    cases hcp
  · rename_i cp0x hcpx
    rw [hcp] at hcpx
    injection hcpx with he
    subst he
    split at hgN
    · rename_i hcond
      rcases hcond with hc1 | hc2
      · exact absurd hpid hc1
      · exact absurd hmv hc2
    · simp only [logTurn] at hgN
      split at hgN
      · rename_i hfn
        have hFN : cp0.pieces.find? (fun x => x.id = pieceId) = none := hfn
        rw [hfind] at hFN
        cases hFN
      · rename_i pieceToMove hfindx
        have hPTM : cp0.pieces.find? (fun x => x.id = pieceId) = some pieceToMove := hfindx
        rw [hfind] at hPTM
        injection hPTM with hePTM
        subst hePTM
        rw [if_pos (by decide : (none : Option ℕ) ≠ some 6)] at hgN
        split at hgN
        · -- the mover wins: still a normal move for the opponents
          injection hgN with he
          subst he
          constructor
          · rintro ⟨hltF, hsafe⟩ j q hj hq
            by_cases hact :
                (getNewPositionInfo pc ((g.diceValue.getD 0 : ℕ) : ℤ)).2 = PieceState.Active
            · have hdoc :
                  (getNewPositionInfo pc ((g.diceValue.getD 0 : ℕ) : ℤ)).2 =
                      PieceState.Active ∧
                    (getNewPositionInfo pc ((g.diceValue.getD 0 : ℕ) : ℤ)).1 <
                      FINISH_POSITION_START ∧
                    (getNewPositionInfo pc ((g.diceValue.getD 0 : ℕ) : ℤ)).1 ∉ SAFE_SPOTS :=
                ⟨hact, hltF, hsafe⟩
              simp only [if_pos hdoc]
              split
              · exact final_get?_pieces g.players g.currentPlayerIndex _ _ cp0.color _
                  j q hj hq hcurcol
              · exact final_get?_pieces g.players g.currentPlayerIndex _ _ cp0.color _
                  j q hj hq hcurcol
            · rcases move_below pc ((g.diceValue.getD 0 : ℕ) : ℤ) hptm hd1.1 hd1.2 hltF with
                hact2 | ⟨hH, hp1, hfb⟩
              · exact absurd hact2 hact
              · have hx1 : (getNewPositionInfo pc ((g.diceValue.getD 0 : ℕ) : ℤ)).1 = -1 :=
                  (congrArg Prod.fst hfb).trans hp1
                have hdocneg :
                    ¬((getNewPositionInfo pc ((g.diceValue.getD 0 : ℕ) : ℤ)).2 =
                        PieceState.Active ∧
                      (getNewPositionInfo pc ((g.diceValue.getD 0 : ℕ) : ℤ)).1 <
                        FINISH_POSITION_START ∧
                      (getNewPositionInfo pc ((g.diceValue.getD 0 : ℕ) : ℤ)).1 ∉ SAFE_SPOTS) :=
                  fun hc => hact hc.1
                simp only [if_neg hdocneg]
                rw [hx1,
                  map_sendHomeAt_neg_one q.pieces
                    (fun y hy => hinv.1 q (List.get?_mem hj) y hy)]
                split
                · exact final_get?_pieces_nocap g.players g.currentPlayerIndex _ _ cp0.color
                    j q hj hq hcurcol
                · exact final_get?_pieces_nocap g.players g.currentPlayerIndex _ _ cp0.color
                    j q hj hq hcurcol
          · intro hsafe100 j q hj hq
            have hdocneg :
                ¬((getNewPositionInfo pc ((g.diceValue.getD 0 : ℕ) : ℤ)).2 =
                    PieceState.Active ∧
                  (getNewPositionInfo pc ((g.diceValue.getD 0 : ℕ) : ℤ)).1 <
                    FINISH_POSITION_START ∧
                  (getNewPositionInfo pc ((g.diceValue.getD 0 : ℕ) : ℤ)).1 ∉ SAFE_SPOTS) := by
              rintro ⟨hact, hlt100, hnsafe⟩
              rcases hsafe100 with hsf | h100
              · exact hnsafe hsf
              · omega
            simp only [if_neg hdocneg]
            split
            · exact final_get?_pieces_nocap g.players g.currentPlayerIndex _ _ cp0.color
                j q hj hq hcurcol
            · exact final_get?_pieces_nocap g.players g.currentPlayerIndex _ _ cp0.color
                j q hj hq hcurcol
        · -- not a win
          split at hgN
          · rename_i hpf
            split at hgN
            · rename_i hdoc
              exact absurd (hpf.symm.trans hdoc.1) (by decide)
            · rename_i hdocneg
              split at hgN
              · injection hgN with he
                subst he
                constructor
                · rintro ⟨hltF, hsafe⟩ j q hj hq
                  have h105 : (getNewPositionInfo pc ((g.diceValue.getD 0 : ℕ) : ℤ)).1 =
                      105 := hwfN.2.1.mp hpf
                  rw [h105] at hltF
                  exact absurd hltF (by decide)
                · intro hsafe100 j q hj hq
                  exact final_get?_pieces_nocap g.players g.currentPlayerIndex _ _ cp0.color
                    j q hj hq hcurcol
              · rename_i hbon
                exact absurd (Or.inr (Or.inr hpf)) hbon
          · rename_i hpf
            split at hgN
            · rename_i hdoc
              split at hgN
              · injection hgN with he
                subst he
                constructor
                · rintro ⟨hltF, hsafe⟩ j q hj hq
                  exact final_get?_pieces g.players g.currentPlayerIndex _ _ cp0.color _
                    j q hj hq hcurcol
                · intro hsafe100 j q hj hq
                  rcases hsafe100 with hsf | h100
                  · exact absurd hsf hdoc.2.2
                  · have := hdoc.2.1
                    omega
              · -- captures recorded nothing: the turn advances
                constructor
                · rintro ⟨hltF, hsafe⟩ j q hj hq
                  rw [advanceTurn_get?_pieces hgN j]
                  exact mid_get?_pieces g.players g.currentPlayerIndex _ cp0.color _
                    j q hj hq hcurcol
                · intro hsafe100 j q hj hq
                  rcases hsafe100 with hsf | h100
                  · exact absurd hsf hdoc.2.2
                  · have := hdoc.2.1
                    omega
            · rename_i hdocneg
              split at hgN
              · injection hgN with he
                subst he
                constructor
                · rintro ⟨hltF, hsafe⟩ j q hj hq
                  by_cases hact :
                      (getNewPositionInfo pc ((g.diceValue.getD 0 : ℕ) : ℤ)).2 =
                        PieceState.Active
                  · exact absurd ⟨hact, hltF, hsafe⟩ hdocneg
                  · rcases move_below pc ((g.diceValue.getD 0 : ℕ) : ℤ) hptm hd1.1 hd1.2
                        hltF with hact2 | ⟨hH, hp1, hfb⟩
                    · exact absurd hact2 hact
                    · have hx1 :
                          (getNewPositionInfo pc ((g.diceValue.getD 0 : ℕ) : ℤ)).1 = -1 :=
                        (congrArg Prod.fst hfb).trans hp1
                      rw [hx1,
                        map_sendHomeAt_neg_one q.pieces
                          (fun y hy => hinv.1 q (List.get?_mem hj) y hy)]
                      exact final_get?_pieces_nocap g.players g.currentPlayerIndex _ _
                        cp0.color j q hj hq hcurcol
                · intro hsafe100 j q hj hq
                  exact final_get?_pieces_nocap g.players g.currentPlayerIndex _ _ cp0.color
                    j q hj hq hcurcol
              · -- an ordinary move: the turn advances
                constructor
                · rintro ⟨hltF, hsafe⟩ j q hj hq
                  by_cases hact :
                      (getNewPositionInfo pc ((g.diceValue.getD 0 : ℕ) : ℤ)).2 =
                        PieceState.Active
                  · exact absurd ⟨hact, hltF, hsafe⟩ hdocneg
                  · rcases move_below pc ((g.diceValue.getD 0 : ℕ) : ℤ) hptm hd1.1 hd1.2
                        hltF with hact2 | ⟨hH, hp1, hfb⟩
                    · exact absurd hact2 hact
                    · have hx1 :
                          (getNewPositionInfo pc ((g.diceValue.getD 0 : ℕ) : ℤ)).1 = -1 :=
                        (congrArg Prod.fst hfb).trans hp1
                      rw [advanceTurn_get?_pieces hgN j, hx1,
                        map_sendHomeAt_neg_one q.pieces
                          (fun y hy => hinv.1 q (List.get?_mem hj) y hy)]
                      exact mid_get?_pieces_nocap g.players g.currentPlayerIndex _ cp0.color
                        j q hj hq hcurcol
                · intro hsafe100 j q hj hq
                  rw [advanceTurn_get?_pieces hgN j]
                  exact mid_get?_pieces_nocap g.players g.currentPlayerIndex _ cp0.color
                    j q hj hq hcurcol

/-- Witness for C3 at `t53`: Alice's runner moves from cell 26 with a 4
to cell 30 (not safe, on the main path) and captures Bob's runner
standing there; Bob's pieces come out all Home. -/
theorem capture_on_landing_witness :
    ∃ gN, movePiece t53 "A" 4 = some gN ∧
      (gN.players.get? 1).map Player.pieces =
        some [⟨8, PlayerColor.Blue, PieceState.Home, -1⟩,
          ⟨9, PlayerColor.Blue, PieceState.Home, -1⟩,
          ⟨10, PlayerColor.Blue, PieceState.Home, -1⟩,
          ⟨11, PlayerColor.Blue, PieceState.Home, -1⟩] := by
  obtain ⟨gN, hgN, hA, hB⟩ :=
    capture_on_landing t53 "A" 4 _ _ reachable_t53 rfl rfl (by decide) rfl
  refine ⟨gN, hgN, ?_⟩
  have h1 := hA (by decide) 1 _ rfl (by decide)
  exact h1.trans (by decide)

end DreamLudo
